import Mathlib

/-!
Shallow embedding of the pallet box-placement engine (`src/app.py`).

Dimensions, coordinates and weights are modelled as exact rationals (`ℚ`).
Python's in-place mutation of a `Box` (its working dimensions, its trial
position and the support threshold recorded on acceptance) is modelled by
threading an updated `Box` value through the search; `find_space_for_box`
returns the final state of the box together with the success flag and the
updated layer set.
-/

/-- A stable insertion sort: the Lean counterpart of Python's stable
`sorted`/`list.sort` used on layer heights, dimension triples and groups. -/
def insertSorted {α : Type} (le : α → α → Bool) (a : α) : List α → List α
  | [] => [a]
  | b :: l => if le a b then a :: b :: l else b :: insertSorted le a l

/-- Stable sort of a list (insertion sort, processed right to left). -/
def pysorted {α : Type} (le : α → α → Bool) (l : List α) : List α :=
  l.foldr (insertSorted le) []

/-- Python `int()` applied to a rational: truncation toward zero. -/
def pyInt (q : ℚ) : ℤ :=
  if 0 ≤ q then ⌊q⌋ else ⌈q⌉

/-- Python `max(l, default=d)`. -/
def pymax (l : List ℚ) (d : ℚ) : ℚ :=
  match l with
  | [] => d
  | x :: xs => xs.foldl max x

/-- Python `math.isclose a b rel_tol abs_tol`. -/
def isclose (a b rel_tol abs_tol : ℚ) : Bool :=
  decide (|a - b| ≤ max (rel_tol * max |a| |b|) abs_tol)

structure Pallet where
  length : ℚ
  width : ℚ
  height : ℚ
  pallet_id : ℕ
deriving DecidableEq

structure Box where
  name : String
  original_length : ℚ
  original_width : ℚ
  original_height : ℚ
  weight : ℚ
  box_id : ℕ
  placed : Bool
  position : Option (ℚ × ℚ × ℚ)
  length : ℚ
  width : ℚ
  height : ℚ
  support_threshold_used : ℚ
deriving DecidableEq

/-- `Box.__init__`: a fresh box unit (current dimensions equal the original
ones, unplaced, no position, default support threshold 80). -/
def Box.make (name : String) (length width height weight : ℚ) (box_id : ℕ) : Box :=
  { name := name, original_length := length, original_width := width,
    original_height := height, weight := weight, box_id := box_id,
    placed := false, position := none,
    length := length, width := width, height := height,
    support_threshold_used := 80 }

/-- x-coordinate of the box's recorded position (`box.position[0]`). -/
def Box.posx (b : Box) : ℚ := (b.position.getD (0, 0, 0)).1

/-- y-coordinate of the box's recorded position (`box.position[1]`). -/
def Box.posy (b : Box) : ℚ := (b.position.getD (0, 0, 0)).2.1

/-- z-coordinate of the box's recorded position (`box.position[2]`). -/
def Box.posz (b : Box) : ℚ := (b.position.getD (0, 0, 0)).2.2

/-- `box.length, box.width, box.height = rotation`. -/
def Box.setDims (b : Box) (r : ℚ × ℚ × ℚ) : Box :=
  { b with length := r.1, width := r.2.1, height := r.2.2 }

/-- `box.position = ...`. -/
def Box.setPos (b : Box) (o : Option (ℚ × ℚ × ℚ)) : Box :=
  { b with position := o }

/-- `box.support_threshold_used = threshold`. -/
def Box.setThr (b : Box) (t : ℚ) : Box :=
  { b with support_threshold_used := t }

/-- `Box.get_rotations`: the two horizontal rotations, stably sorted by
their first component (the working length). -/
def Box.get_rotations (b : Box) : List (ℚ × ℚ × ℚ) :=
  pysorted (fun r s => decide (r.1 ≤ s.1))
    [(b.original_length, b.original_width, b.original_height),
     (b.original_width, b.original_length, b.original_height)]

/-- `Box.dimension_tuple`: the three original dimensions sorted ascending. -/
def Box.dimension_tuple (b : Box) : List ℚ :=
  pysorted (fun a c => decide (a ≤ c)) [b.original_length, b.original_width, b.original_height]

/-- One entry of the `groups` dict of `group_boxes_by_dimensions`:
the key (sorted dimension triple), the member boxes in insertion order, and
the single-box volume recorded when the group was created. -/
structure BoxGroup where
  dims : List ℚ
  boxes : List Box
  volume : ℚ
deriving DecidableEq

/-- Insert one box into the (insertion-ordered) association list of groups,
as the Python dict mutation in `group_boxes_by_dimensions` does. -/
def insertGroup : List BoxGroup → Box → List BoxGroup
  | [], box =>
    [{ dims := box.dimension_tuple, boxes := [box],
       volume := box.original_length * box.original_width * box.original_height }]
  | g :: rest, box =>
    if g.dims = box.dimension_tuple then
      { g with boxes := g.boxes ++ [box] } :: rest
    else
      g :: insertGroup rest box

/-- `group_boxes_by_dimensions`. -/
def group_boxes_by_dimensions (boxes : List Box) : List BoxGroup :=
  boxes.foldl insertGroup []

/-- The comparison used by `sort_boxes_by_group_priority`:
group `g1` comes no later than `g2` iff its key
`(volume * count, count)` is lexicographically no smaller (Python
`sorted(..., key=..., reverse=True)` is a stable descending sort). -/
def groupLe (g1 g2 : BoxGroup) : Bool :=
  decide (g2.volume * g2.boxes.length < g1.volume * g1.boxes.length ∨
    (g2.volume * (g2.boxes.length : ℚ) = g1.volume * g1.boxes.length ∧
      g2.boxes.length ≤ g1.boxes.length))

/-- `sort_boxes_by_group_priority`. -/
def sort_boxes_by_group_priority (groups : List BoxGroup) : List Box :=
  ((pysorted groupLe groups).map BoxGroup.boxes).flatten

/-- `can_place_box`. -/
def can_place_box (pallet : Pallet) (placed_boxes : List Box) (box : Box)
    (x y z : ℚ) : Bool :=
  if x + box.length > pallet.length ∨ y + box.width > pallet.width ∨
      z + box.height > pallet.height then
    false
  else
    placed_boxes.all fun other =>
      decide (x + box.length ≤ other.posx ∨ x ≥ other.posx + other.length ∨
        y + box.width ≤ other.posy ∨ y ≥ other.posy + other.width ∨
        z + box.height ≤ other.posz ∨ z ≥ other.posz + other.height)

/-- `is_supported`: returns the pair (sufficient?, support percentage). -/
def is_supported (placed_boxes : List Box) (box : Box) (support_threshold : ℚ) :
    Bool × ℚ :=
  if box.posz = 0 then
    (true, 100)
  else
    let box_area := box.length * box.width
    let support_area := (placed_boxes.map fun other =>
      if isclose (other.posz + other.height) box.posz (1 / 1000000000) (1 / 1000000) then
        (max 0 (min (box.posx + box.length) (other.posx + other.length) -
          max box.posx other.posx)) *
        (max 0 (min (box.posy + box.width) (other.posy + other.width) -
          max box.posy other.posy))
      else 0).sum
    let support_percentage := support_area / box_area * 100
    (decide (support_percentage ≥ support_threshold), support_percentage)

/-- The descending threshold ladder of `find_space_for_box`. -/
def support_thresholds : List ℚ := [80, 75, 70, 65, 60]

/-- The inner threshold loop of `find_space_for_box`: the first threshold of
the ladder whose support test passes. -/
def tryThreshold (placed_boxes : List Box) (box : Box) : Option ℚ :=
  support_thresholds.find? fun t => (is_supported placed_boxes box t).1

/-- `generate_possible_positions` (the returned grid points are the integer
pairs produced by the two Python `range`s, in generation order). -/
def generate_possible_positions (pallet : Pallet) (placed_boxes : List Box)
    (box : Box) (z : ℚ) : List (ℕ × ℕ) :=
  let xr := (pyInt (pallet.length - box.length + 1)).toNat
  let yr := (pyInt (pallet.width - box.width + 1)).toNat
  (List.range xr).flatMap fun x => (List.range yr).map fun y => (x, y)

/-- The position loop of `find_space_for_box` at a fixed layer and rotation:
the box's position field is overwritten at every candidate before the
placement check, exactly as the Python code mutates `box.position`. -/
def tryPositions (pallet : Pallet) (placed_boxes : List Box) (z : ℚ) :
    Box → List (ℕ × ℕ) → Bool × Box
  | box, [] => (false, box)
  | box, (x, y) :: rest =>
    let box1 := box.setPos (some ((x : ℚ), (y : ℚ), z))
    if can_place_box pallet placed_boxes box1 x y z then
      match tryThreshold placed_boxes box1 with
      | some t => (true, box1.setThr t)
      | none => tryPositions pallet placed_boxes z box1 rest
    else
      tryPositions pallet placed_boxes z box1 rest

/-- The rotation loop of `find_space_for_box` at a fixed layer: the box's
working dimensions are overwritten at each rotation. -/
def tryRotations (pallet : Pallet) (placed_boxes : List Box) (z : ℚ) :
    Box → List (ℚ × ℚ × ℚ) → Bool × Box
  | box, [] => (false, box)
  | box, r :: rs =>
    let box1 := box.setDims r
    let positions := generate_possible_positions pallet placed_boxes box1 z
    match tryPositions pallet placed_boxes z box1 positions with
    | (true, b) => (true, b)
    | (false, b) => tryRotations pallet placed_boxes z b rs

/-- The layer loop of `find_space_for_box` (first pass, over the sorted
already-opened layer heights). -/
def tryLayers (pallet : Pallet) (placed_boxes : List Box) :
    Box → List ℚ → Bool × Box
  | box, [] => (false, box)
  | box, zl :: zs =>
    match tryRotations pallet placed_boxes zl box box.get_rotations with
    | (true, b) => (true, b)
    | (false, b) => tryLayers pallet placed_boxes b zs

/-- `layers.add z` on the layer set (modelled as a duplicate-free list). -/
def insertLayer (z : ℚ) (layers : List ℚ) : List ℚ :=
  if z ∈ layers then layers else layers ++ [z]

/-- `sorted(layers)`. -/
def sortedLayers (layers : List ℚ) : List ℚ :=
  pysorted (fun a b => decide (a ≤ b)) layers

/-- `find_space_for_box`: returns the success flag, the final state of the
(mutated) box, and the updated layer set. -/
def find_space_for_box (pallet : Pallet) (placed_boxes : List Box) (box : Box)
    (layers : List ℚ) : Bool × Box × List ℚ :=
  match tryLayers pallet placed_boxes box (sortedLayers layers) with
  | (true, b) => (true, b, layers)
  | (false, b1) =>
    let max_height := pymax (placed_boxes.map fun b => b.posz + b.height) 0
    if max_height + b1.height > pallet.height then
      (false, b1, layers)
    else
      match tryRotations pallet placed_boxes max_height b1 b1.get_rotations with
      | (true, b2) => (true, b2, insertLayer max_height layers)
      | (false, b2) => (false, b2, layers)

/-- `calculate_volumetric_weight`. -/
def calculate_volumetric_weight (pallet : Pallet) (placed_boxes : List Box) : ℚ :=
  let max_height := pymax (placed_boxes.map fun box => box.posz + box.height) 0
  pallet.length * pallet.width * max_height / 6000

/-- `check_perfect_arrangement`. -/
def check_perfect_arrangement (pallet : Pallet) (placed_boxes : List Box) : Bool :=
  let total_box_volume := (placed_boxes.map fun box => box.length * box.width * box.height).sum
  let pallet_volume := pallet.length * pallet.width * pallet.height
  isclose total_box_volume pallet_volume (1 / 1000) 0

/-- Modelled from the spec: the per-pallet placement loop of `place_boxes`,
which is called from `main` but whose definition is not part of the provided
source. Per §4.5 of the spec it processes the ordered sequence box by box,
appends each accepted box (marked placed) to the placed list, and aborts with
the first unplaceable box's name. -/
def placeLoop (pallet : Pallet) : List Box → List Box → List ℚ → Except String (List Box)
  | [], placed, _ => .ok placed
  | b :: rest, placed, layers =>
    match find_space_for_box pallet placed b layers with
    | (true, b1, layers1) => placeLoop pallet rest (placed ++ [{ b1 with placed := true }]) layers1
    | (false, _, _) => .error b.name

/-- Modelled from the spec: `place_boxes`, called from `main` but missing
from the provided source. Per §4.5: group and order the boxes, seed the layer
set with {0}, run the placement loop, and on success return the placed list
with the perfect-fill flag; on failure name the first unplaceable box. -/
def place_boxes (pallet : Pallet) (boxes : List Box) : Except String (List Box × Bool) :=
  match placeLoop pallet (sort_boxes_by_group_priority (group_boxes_by_dimensions boxes)) [] [0] with
  | .ok placed => .ok (placed, check_perfect_arrangement pallet placed)
  | .error n => .error n

/-- One box-type row of the input form consumed by `main`. -/
structure BoxSpec where
  name : String
  length : ℚ
  width : ℚ
  height : ℚ
  weight : ℚ
  quantity : ℕ
deriving DecidableEq

/-- The box-instantiation loop of `main`: each type is expanded into
`quantity` unit boxes, with one `box_id` counter running across all types. -/
def makeBoxesFrom : List BoxSpec → ℕ → List Box
  | [], _ => []
  | s :: rest, n =>
    ((List.range s.quantity).map fun i =>
      Box.make s.name s.length s.width s.height s.weight (n + i)) ++
    makeBoxesFrom rest (n + s.quantity)

/-- The boxes instantiated by `main` from the box-type descriptors. -/
def makeBoxes (specs : List BoxSpec) : List Box :=
  makeBoxesFrom specs 0

/-- The work done by `main` for a single pallet. -/
def processPallet (pallet : Pallet) (specs : List BoxSpec) :
    Except String (List Box × Bool) :=
  place_boxes pallet (makeBoxes specs)

/-- The multi-pallet loop of `main`: every pallet is processed, a failed
pallet is reported and the loop continues with the next pallet. -/
def runPallets (pallets : List Pallet) (specs : List BoxSpec) :
    List (Except String (List Box × Bool)) :=
  match pallets with
  | [] => []
  | p :: rest => processPallet p specs :: runPallets rest specs

/-! ### Generic lemmas about the stable insertion sort -/

theorem mem_insertSorted {α : Type} (le : α → α → Bool) (a b : α) (l : List α) :
    b ∈ insertSorted le a l ↔ b = a ∨ b ∈ l := by
  induction l with
  | nil => simp [insertSorted]
  | cons c l ih =>
    by_cases h : le a c
    · simp [insertSorted, h]
    · simp only [insertSorted, h, Bool.false_eq_true, if_false, List.mem_cons, ih]
      tauto

theorem insertSorted_perm {α : Type} (le : α → α → Bool) (a : α) (l : List α) :
    (insertSorted le a l).Perm (a :: l) := by
  induction l with
  | nil => simp [insertSorted]
  | cons c l ih =>
    by_cases h : le a c
    · simp [insertSorted, h]
    · simpa [insertSorted, h] using (ih.cons c).trans (List.Perm.swap a c l)

theorem pysorted_perm {α : Type} (le : α → α → Bool) (l : List α) :
    (pysorted le l).Perm l := by
  induction l with
  | nil => simp [pysorted]
  | cons a l ih => exact (insertSorted_perm le a (pysorted le l)).trans (ih.cons a)

theorem mem_pysorted {α : Type} (le : α → α → Bool) (b : α) (l : List α) :
    b ∈ pysorted le l ↔ b ∈ l :=
  (pysorted_perm le l).mem_iff

theorem pairwise_insertSorted {α : Type} {le : α → α → Bool}
    (htot : ∀ a b, le a b = false → le b a = true)
    (htrans : ∀ a b c, le a b = true → le b c = true → le a c = true)
    (a : α) (l : List α) (hl : l.Pairwise (fun x y => le x y = true)) :
    (insertSorted le a l).Pairwise (fun x y => le x y = true) := by
  induction l with
  | nil => simp [insertSorted]
  | cons c l ih =>
    rw [List.pairwise_cons] at hl
    obtain ⟨hc, hl⟩ := hl
    by_cases h : le a c
    · have he : insertSorted le a (c :: l) = a :: c :: l := by simp [insertSorted, h]
      rw [he]
      refine List.Pairwise.cons ?_ (List.Pairwise.cons hc hl)
      intro y hy
      rcases List.mem_cons.mp hy with rfl | hy
      · exact h
      · exact htrans _ _ _ h (hc y hy)
    · have he : insertSorted le a (c :: l) = c :: insertSorted le a l := by
        simp [insertSorted, h]
      rw [he]
      refine List.Pairwise.cons ?_ (ih hl)
      intro y hy
      rcases (mem_insertSorted le a y l).mp hy with rfl | hy
      · exact htot _ _ (Bool.eq_false_iff.mpr h)
      · exact hc y hy

theorem pairwise_pysorted {α : Type} {le : α → α → Bool}
    (htot : ∀ a b, le a b = false → le b a = true)
    (htrans : ∀ a b c, le a b = true → le b c = true → le a c = true)
    (l : List α) :
    (pysorted le l).Pairwise (fun x y => le x y = true) := by
  induction l with
  | nil => simp [pysorted]
  | cons a l ih => exact pairwise_insertSorted htot htrans a (pysorted le l) ih

/-! ### Simp lemmas for the mutable box fields -/

@[simp] theorem Box.length_setPos (b : Box) (o : Option (ℚ × ℚ × ℚ)) :
    (b.setPos o).length = b.length := rfl
@[simp] theorem Box.width_setPos (b : Box) (o : Option (ℚ × ℚ × ℚ)) :
    (b.setPos o).width = b.width := rfl
@[simp] theorem Box.height_setPos (b : Box) (o : Option (ℚ × ℚ × ℚ)) :
    (b.setPos o).height = b.height := rfl
@[simp] theorem Box.position_setPos (b : Box) (o : Option (ℚ × ℚ × ℚ)) :
    (b.setPos o).position = o := rfl
@[simp] theorem Box.length_setDims (b : Box) (r : ℚ × ℚ × ℚ) :
    (b.setDims r).length = r.1 := rfl
@[simp] theorem Box.width_setDims (b : Box) (r : ℚ × ℚ × ℚ) :
    (b.setDims r).width = r.2.1 := rfl
@[simp] theorem Box.height_setDims (b : Box) (r : ℚ × ℚ × ℚ) :
    (b.setDims r).height = r.2.2 := rfl
@[simp] theorem Box.position_setDims (b : Box) (r : ℚ × ℚ × ℚ) :
    (b.setDims r).position = b.position := rfl
@[simp] theorem Box.posx_setPos (b : Box) (c : ℚ × ℚ × ℚ) :
    (b.setPos (some c)).posx = c.1 := rfl
@[simp] theorem Box.posy_setPos (b : Box) (c : ℚ × ℚ × ℚ) :
    (b.setPos (some c)).posy = c.2.1 := rfl
@[simp] theorem Box.posz_setPos (b : Box) (c : ℚ × ℚ × ℚ) :
    (b.setPos (some c)).posz = c.2.2 := rfl
@[simp] theorem Box.setPos_setPos (b : Box) (o o' : Option (ℚ × ℚ × ℚ)) :
    (b.setPos o).setPos o' = b.setPos o' := rfl
@[simp] theorem Box.setDims_setDims (b : Box) (r r' : ℚ × ℚ × ℚ) :
    (b.setDims r).setDims r' = b.setDims r' := rfl
@[simp] theorem Box.setDims_setPos (b : Box) (o : Option (ℚ × ℚ × ℚ)) (r : ℚ × ℚ × ℚ) :
    (b.setPos o).setDims r = (b.setDims r).setPos o := rfl
@[simp] theorem Box.get_rotations_setPos (b : Box) (o : Option (ℚ × ℚ × ℚ)) :
    (b.setPos o).get_rotations = b.get_rotations := rfl
@[simp] theorem Box.get_rotations_setDims (b : Box) (r : ℚ × ℚ × ℚ) :
    (b.setDims r).get_rotations = b.get_rotations := rfl
@[simp] theorem Box.get_rotations_setThr (b : Box) (t : ℚ) :
    (b.setThr t).get_rotations = b.get_rotations := rfl
@[simp] theorem Box.support_threshold_used_setThr (b : Box) (t : ℚ) :
    (b.setThr t).support_threshold_used = t := rfl
@[simp] theorem Box.position_setThr (b : Box) (t : ℚ) :
    (b.setThr t).position = b.position := rfl

/-- The immutable part of a box: everything except the working dimensions and
the trial position (the support threshold counts as immutable along a failed
search, which never writes it). -/
def Box.core (b : Box) : String × ℚ × ℚ × ℚ × ℚ × ℕ × Bool × ℚ :=
  (b.name, b.original_length, b.original_width, b.original_height, b.weight,
    b.box_id, b.placed, b.support_threshold_used)

@[simp] theorem Box.core_setPos (b : Box) (o : Option (ℚ × ℚ × ℚ)) :
    (b.setPos o).core = b.core := rfl
@[simp] theorem Box.core_setDims (b : Box) (r : ℚ × ℚ × ℚ) :
    (b.setDims r).core = b.core := rfl

theorem Box.eq_setDims_setPos_of_core {b box : Box} (h : b.core = box.core) :
    b = (box.setDims (b.length, b.width, b.height)).setPos b.position := by
  cases b
  cases box
  simp only [Box.core, Prod.mk.injEq] at h
  obtain ⟨h1, h2, h3, h4, h5, h6, h7, h8⟩ := h
  simp [Box.setDims, Box.setPos, h1, h2, h3, h4, h5, h6, h7, h8]

theorem Box.get_rotations_of_core {b box : Box} (h : b.core = box.core) :
    b.get_rotations = box.get_rotations := by
  cases b
  cases box
  simp only [Box.core, Prod.mk.injEq] at h
  obtain ⟨h1, h2, h3, h4, h5, h6, h7, h8⟩ := h
  simp [Box.get_rotations, h2, h3, h4]

/-! ### Probing a single candidate -/

/-- The outcome of probing one candidate `(x, y)` on layer `z` for a box whose
working rotation is already set: `some t` when the candidate fits in bounds,
overlaps no placed box, and `t` is the first threshold of the descending
ladder whose support test passes; `none` otherwise. -/
def attemptPos (pallet : Pallet) (placed_boxes : List Box) (z : ℚ) (box : Box)
    (p : ℕ × ℕ) : Option ℚ :=
  let box1 := box.setPos (some ((p.1 : ℚ), (p.2 : ℚ), z))
  if can_place_box pallet placed_boxes box1 p.1 p.2 z then
    tryThreshold placed_boxes box1
  else none

/-- The outcome of probing one rotation on layer `z`: the first candidate
position (in generation order) that is accepted, with its threshold. -/
def attemptRot (pallet : Pallet) (placed_boxes : List Box) (z : ℚ) (box : Box)
    (r : ℚ × ℚ × ℚ) : Option ((ℕ × ℕ) × ℚ) :=
  (generate_possible_positions pallet placed_boxes (box.setDims r) z).findSome?
    fun p => (attemptPos pallet placed_boxes z (box.setDims r) p).map fun t => (p, t)

/-- The outcome of probing one layer: the first rotation (in `get_rotations`
order) with an accepted position, together with that position and threshold. -/
def attemptLayer (pallet : Pallet) (placed_boxes : List Box) (box : Box)
    (z : ℚ) : Option ((ℚ × ℚ × ℚ) × (ℕ × ℕ) × ℚ) :=
  box.get_rotations.findSome? fun r =>
    (attemptRot pallet placed_boxes z box r).map fun pt => (r, pt.1, pt.2)

theorem attemptPos_setPos (pallet : Pallet) (placed_boxes : List Box) (z : ℚ)
    (box : Box) (o : Option (ℚ × ℚ × ℚ)) (p : ℕ × ℕ) :
    attemptPos pallet placed_boxes z (box.setPos o) p =
      attemptPos pallet placed_boxes z box p := rfl

theorem generate_setPos (pallet : Pallet) (placed_boxes : List Box) (box : Box)
    (o : Option (ℚ × ℚ × ℚ)) (z : ℚ) :
    generate_possible_positions pallet placed_boxes (box.setPos o) z =
      generate_possible_positions pallet placed_boxes box z := rfl

theorem attemptRot_setPos (pallet : Pallet) (placed_boxes : List Box) (z : ℚ)
    (box : Box) (o : Option (ℚ × ℚ × ℚ)) (r : ℚ × ℚ × ℚ) :
    attemptRot pallet placed_boxes z (box.setPos o) r =
      attemptRot pallet placed_boxes z box r := by
  simp only [attemptRot, Box.setDims_setPos, generate_setPos, attemptPos_setPos]

theorem attemptRot_setDims (pallet : Pallet) (placed_boxes : List Box) (z : ℚ)
    (box : Box) (d : ℚ × ℚ × ℚ) (r : ℚ × ℚ × ℚ) :
    attemptRot pallet placed_boxes z (box.setDims d) r =
      attemptRot pallet placed_boxes z box r := rfl

theorem attemptRot_core {b box : Box} (h : b.core = box.core)
    (pallet : Pallet) (placed_boxes : List Box) (z : ℚ) (r : ℚ × ℚ × ℚ) :
    attemptRot pallet placed_boxes z b r = attemptRot pallet placed_boxes z box r := by
  rw [Box.eq_setDims_setPos_of_core h, attemptRot_setPos, attemptRot_setDims]

theorem Box.setDims_setPos_of_core {b box : Box} (h : b.core = box.core)
    (r : ℚ × ℚ × ℚ) (o : Option (ℚ × ℚ × ℚ)) :
    (b.setDims r).setPos o = (box.setDims r).setPos o := by
  rw [Box.eq_setDims_setPos_of_core h]
  simp

theorem attemptLayer_core {b box : Box} (h : b.core = box.core)
    (pallet : Pallet) (placed_boxes : List Box) (z : ℚ) :
    attemptLayer pallet placed_boxes b z = attemptLayer pallet placed_boxes box z := by
  simp only [attemptLayer, Box.get_rotations_of_core h, attemptRot_core h]

/-! ### The position loop as a first fit over the candidate list -/

theorem tryPositions_eq_of_findSome (pallet : Pallet) (placed_boxes : List Box)
    (z : ℚ) (ps : List (ℕ × ℕ)) :
    ∀ (box : Box) (p : ℕ × ℕ) (t : ℚ),
      (ps.findSome? fun q =>
        (attemptPos pallet placed_boxes z box q).map fun u => (q, u)) = some (p, t) →
      tryPositions pallet placed_boxes z box ps =
        (true, (box.setPos (some ((p.1 : ℚ), (p.2 : ℚ), z))).setThr t) := by
  induction ps with
  | nil => intro box p t h; simp at h
  | cons q rest ih =>
    intro box p t h
    obtain ⟨x, y⟩ := q
    rw [List.findSome?_cons] at h
    rcases hq : attemptPos pallet placed_boxes z box (x, y) with _ | t0
    · rw [hq] at h
      simp only [Option.map_none'] at h
      have hrec := ih (box.setPos (some ((x : ℚ), (y : ℚ), z))) p t
        (by simpa only [attemptPos_setPos] using h)
      unfold attemptPos at hq
      simp only at hq
      by_cases hc : can_place_box pallet placed_boxes
          (box.setPos (some ((x : ℚ), (y : ℚ), z))) x y z
      · rw [if_pos hc] at hq
        simp only [tryPositions, hc, if_true, hq]
        simpa only [Box.setPos_setPos] using hrec
      · simp only [tryPositions, hc, Bool.false_eq_true, if_false]
        simpa only [Box.setPos_setPos] using hrec
    · rw [hq] at h
      simp only [Option.map_some'] at h
      rcases h with h
      have hp : (x, y) = p ∧ t0 = t := by
        constructor <;> [exact congrArg Prod.fst (Option.some.inj h);
          exact congrArg Prod.snd (Option.some.inj h)]
      obtain ⟨rfl, rfl⟩ := hp
      unfold attemptPos at hq
      simp only at hq
      by_cases hc : can_place_box pallet placed_boxes
          (box.setPos (some ((x : ℚ), (y : ℚ), z))) x y z
      · rw [if_pos hc] at hq
        simp only [tryPositions, hc, if_true, hq]
      · rw [if_neg hc] at hq
        exact absurd hq (by simp)

theorem tryPositions_false_of_findSome_none (pallet : Pallet)
    (placed_boxes : List Box) (z : ℚ) (ps : List (ℕ × ℕ)) :
    ∀ (box : Box),
      (ps.findSome? fun q =>
        (attemptPos pallet placed_boxes z box q).map fun u => (q, u)) = none →
      (tryPositions pallet placed_boxes z box ps).1 = false := by
  induction ps with
  | nil => intro box _; rfl
  | cons q rest ih =>
    intro box h
    obtain ⟨x, y⟩ := q
    rw [List.findSome?_cons] at h
    rcases hq : attemptPos pallet placed_boxes z box (x, y) with _ | t0
    · rw [hq] at h
      simp only [Option.map_none'] at h
      have hrec := ih (box.setPos (some ((x : ℚ), (y : ℚ), z)))
        (by simpa only [attemptPos_setPos] using h)
      unfold attemptPos at hq
      simp only at hq
      by_cases hc : can_place_box pallet placed_boxes
          (box.setPos (some ((x : ℚ), (y : ℚ), z))) x y z
      · rw [if_pos hc] at hq
        simp only [tryPositions, hc, if_true, hq]
        exact hrec
      · simp only [tryPositions, hc, Bool.false_eq_true, if_false]
        exact hrec
    · rw [hq] at h
      simp at h

theorem tryPositions_residue (pallet : Pallet) (placed_boxes : List Box)
    (z : ℚ) (ps : List (ℕ × ℕ)) :
    ∀ (box res : Box),
      tryPositions pallet placed_boxes z box ps = (false, res) →
      res.core = box.core ∧ res.length = box.length ∧
        res.width = box.width ∧ res.height = box.height := by
  induction ps with
  | nil =>
    intro box res h
    simp only [tryPositions, Prod.mk.injEq] at h
    rw [h.2]
    exact ⟨rfl, rfl, rfl, rfl⟩
  | cons q rest ih =>
    intro box res h
    obtain ⟨x, y⟩ := q
    by_cases hc : can_place_box pallet placed_boxes
        (box.setPos (some ((x : ℚ), (y : ℚ), z))) x y z
    · rcases ht : tryThreshold placed_boxes
          (box.setPos (some ((x : ℚ), (y : ℚ), z))) with _ | t0
      · simp only [tryPositions, hc, if_true, ht] at h
        simpa using ih (box.setPos (some ((x : ℚ), (y : ℚ), z))) res h
      · simp only [tryPositions, hc, if_true, ht, Prod.mk.injEq] at h
        exact absurd h.1 (by simp)
    · simp only [tryPositions, hc, Bool.false_eq_true, if_false] at h
      simpa using ih (box.setPos (some ((x : ℚ), (y : ℚ), z))) res h

/-! ### The rotation loop as a first fit -/

theorem tryRotations_eq_of_findSome (pallet : Pallet) (placed_boxes : List Box)
    (z : ℚ) (rs : List (ℚ × ℚ × ℚ)) :
    ∀ (box : Box) (r : ℚ × ℚ × ℚ) (p : ℕ × ℕ) (t : ℚ),
      (rs.findSome? fun s =>
        (attemptRot pallet placed_boxes z box s).map fun pt => (s, pt.1, pt.2)) =
        some (r, p, t) →
      tryRotations pallet placed_boxes z box rs =
        (true, ((box.setDims r).setPos (some ((p.1 : ℚ), (p.2 : ℚ), z))).setThr t) := by
  induction rs with
  | nil => intro box r p t h; simp at h
  | cons s rest ih =>
    intro box r p t h
    rw [List.findSome?_cons] at h
    rcases hs : attemptRot pallet placed_boxes z box s with _ | pt
    · rw [hs] at h
      simp only [Option.map_none'] at h
      unfold attemptRot at hs
      rcases hres : tryPositions pallet placed_boxes z (box.setDims s)
          (generate_possible_positions pallet placed_boxes (box.setDims s) z) with ⟨fl, bres⟩
      have hfl : fl = false := by
        have := tryPositions_false_of_findSome_none pallet placed_boxes z _
          (box.setDims s) hs
        rw [hres] at this
        exact this
      subst hfl
      have hcore : bres.core = box.core := by
        have := tryPositions_residue pallet placed_boxes z _ (box.setDims s) bres hres
        simpa using this.1
      have hrw : ∀ s', attemptRot pallet placed_boxes z bres s' =
          attemptRot pallet placed_boxes z box s' :=
        fun s' => attemptRot_core hcore pallet placed_boxes z s'
      have hrec := ih bres r p t (by simpa only [hrw] using h)
      simp only [tryRotations, hres]
      rw [hrec, Box.setDims_setPos_of_core hcore]
    · rw [hs] at h
      simp only [Option.map_some', Option.some.injEq, Prod.mk.injEq] at h
      obtain ⟨rfl, hp, ht⟩ := h
      unfold attemptRot at hs
      have hpos := tryPositions_eq_of_findSome pallet placed_boxes z _
        (box.setDims s) pt.1 pt.2 (by rw [hs])
      simp only [tryRotations, hpos]
      rw [hp, ht]

theorem tryRotations_false_of_findSome_none (pallet : Pallet)
    (placed_boxes : List Box) (z : ℚ) (rs : List (ℚ × ℚ × ℚ)) :
    ∀ (box : Box),
      (rs.findSome? fun s =>
        (attemptRot pallet placed_boxes z box s).map fun pt => (s, pt.1, pt.2)) = none →
      (tryRotations pallet placed_boxes z box rs).1 = false := by
  induction rs with
  | nil => intro box _; rfl
  | cons s rest ih =>
    intro box h
    rw [List.findSome?_cons] at h
    rcases hs : attemptRot pallet placed_boxes z box s with _ | pt
    · rw [hs] at h
      simp only [Option.map_none'] at h
      unfold attemptRot at hs
      rcases hres : tryPositions pallet placed_boxes z (box.setDims s)
          (generate_possible_positions pallet placed_boxes (box.setDims s) z) with ⟨fl, bres⟩
      have hfl : fl = false := by
        have := tryPositions_false_of_findSome_none pallet placed_boxes z _
          (box.setDims s) hs
        rw [hres] at this
        exact this
      subst hfl
      have hcore : bres.core = box.core := by
        have := tryPositions_residue pallet placed_boxes z _ (box.setDims s) bres hres
        simpa using this.1
      have hrw : ∀ s', attemptRot pallet placed_boxes z bres s' =
          attemptRot pallet placed_boxes z box s' :=
        fun s' => attemptRot_core hcore pallet placed_boxes z s'
      simp only [tryRotations, hres]
      exact ih bres (by simpa only [hrw] using h)
    · rw [hs] at h
      simp at h

theorem tryRotations_residue (pallet : Pallet) (placed_boxes : List Box)
    (z : ℚ) (rs : List (ℚ × ℚ × ℚ)) :
    ∀ (box res : Box),
      tryRotations pallet placed_boxes z box rs = (false, res) →
      res.core = box.core := by
  induction rs with
  | nil =>
    intro box res h
    simp only [tryRotations, Prod.mk.injEq] at h
    rw [h.2]
  | cons s rest ih =>
    intro box res h
    rcases hres : tryPositions pallet placed_boxes z (box.setDims s)
        (generate_possible_positions pallet placed_boxes (box.setDims s) z) with ⟨fl, bres⟩
    cases fl with
    | true =>
      simp only [tryRotations, hres, Prod.mk.injEq] at h
      exact absurd h.1 (by simp)
    | false =>
      simp only [tryRotations, hres] at h
      have h1 := ih bres res h
      have h2 : bres.core = box.core := by
        have := tryPositions_residue pallet placed_boxes z _ (box.setDims s) bres hres
        simpa using this.1
      rw [h1, h2]

theorem tryRotations_height (pallet : Pallet) (placed_boxes : List Box)
    (z : ℚ) (h0 : ℚ) (rs : List (ℚ × ℚ × ℚ)) :
    ∀ (box res : Box),
      (∀ s ∈ rs, s.2.2 = h0) → rs ≠ [] →
      tryRotations pallet placed_boxes z box rs = (false, res) →
      res.height = h0 := by
  induction rs with
  | nil => intro box res _ hne _; exact absurd rfl hne
  | cons s rest ih =>
    intro box res hall _ h
    rcases hres : tryPositions pallet placed_boxes z (box.setDims s)
        (generate_possible_positions pallet placed_boxes (box.setDims s) z) with ⟨fl, bres⟩
    cases fl with
    | true =>
      simp only [tryRotations, hres, Prod.mk.injEq] at h
      exact absurd h.1 (by simp)
    | false =>
      simp only [tryRotations, hres] at h
      have hbh : bres.height = h0 := by
        have := (tryPositions_residue pallet placed_boxes z _ (box.setDims s) bres hres).2.2.2
        rw [this, Box.height_setDims, hall s (List.mem_cons_self s rest)]
      cases rest with
      | nil =>
        simp only [tryRotations, Prod.mk.injEq] at h
        rw [← h.2, hbh]
      | cons s' rest' =>
        exact ih bres res (fun u hu => hall u (List.mem_cons_of_mem s hu))
          (List.cons_ne_nil s' rest') h

/-! ### The layer loop as a first fit -/

theorem tryLayers_eq_of_findSome (pallet : Pallet) (placed_boxes : List Box)
    (zs : List ℚ) :
    ∀ (box : Box) (zl : ℚ) (r : ℚ × ℚ × ℚ) (p : ℕ × ℕ) (t : ℚ),
      (zs.findSome? fun w =>
        (attemptLayer pallet placed_boxes box w).map fun rpt => (w, rpt)) =
        some (zl, r, p, t) →
      tryLayers pallet placed_boxes box zs =
        (true, ((box.setDims r).setPos (some ((p.1 : ℚ), (p.2 : ℚ), zl))).setThr t) := by
  induction zs with
  | nil => intro box zl r p t h; simp at h
  | cons w rest ih =>
    intro box zl r p t h
    rw [List.findSome?_cons] at h
    rcases hw : attemptLayer pallet placed_boxes box w with _ | rpt
    · rw [hw] at h
      simp only [Option.map_none'] at h
      unfold attemptLayer at hw
      rcases hres : tryRotations pallet placed_boxes w box box.get_rotations with ⟨fl, bres⟩
      have hfl : fl = false := by
        have := tryRotations_false_of_findSome_none pallet placed_boxes w _ box hw
        rw [hres] at this
        exact this
      subst hfl
      have hcore : bres.core = box.core :=
        tryRotations_residue pallet placed_boxes w _ box bres hres
      have hrw : ∀ w', attemptLayer pallet placed_boxes bres w' =
          attemptLayer pallet placed_boxes box w' :=
        fun w' => attemptLayer_core hcore pallet placed_boxes w'
      have hrec := ih bres zl r p t (by simpa only [hrw] using h)
      simp only [tryLayers, hres]
      rw [hrec, Box.setDims_setPos_of_core hcore]
    · rw [hw] at h
      simp only [Option.map_some', Option.some.injEq, Prod.mk.injEq] at h
      obtain ⟨rfl, hrpt⟩ := h
      unfold attemptLayer at hw
      have hrot := tryRotations_eq_of_findSome pallet placed_boxes w _ box rpt.1 rpt.2.1 rpt.2.2
        (by rw [hw])
      simp only [tryLayers, hrot]
      rw [hrpt]

theorem tryLayers_false_of_findSome_none (pallet : Pallet)
    (placed_boxes : List Box) (zs : List ℚ) :
    ∀ (box : Box),
      (zs.findSome? fun w =>
        (attemptLayer pallet placed_boxes box w).map fun rpt => (w, rpt)) = none →
      (tryLayers pallet placed_boxes box zs).1 = false := by
  induction zs with
  | nil => intro box _; rfl
  | cons w rest ih =>
    intro box h
    rw [List.findSome?_cons] at h
    rcases hw : attemptLayer pallet placed_boxes box w with _ | rpt
    · rw [hw] at h
      simp only [Option.map_none'] at h
      unfold attemptLayer at hw
      rcases hres : tryRotations pallet placed_boxes w box box.get_rotations with ⟨fl, bres⟩
      have hfl : fl = false := by
        have := tryRotations_false_of_findSome_none pallet placed_boxes w _ box hw
        rw [hres] at this
        exact this
      subst hfl
      have hcore : bres.core = box.core :=
        tryRotations_residue pallet placed_boxes w _ box bres hres
      have hrw : ∀ w', attemptLayer pallet placed_boxes bres w' =
          attemptLayer pallet placed_boxes box w' :=
        fun w' => attemptLayer_core hcore pallet placed_boxes w'
      simp only [tryLayers, hres]
      exact ih bres (by simpa only [hrw] using h)
    · rw [hw] at h
      simp at h

theorem tryLayers_residue (pallet : Pallet) (placed_boxes : List Box)
    (zs : List ℚ) :
    ∀ (box res : Box),
      tryLayers pallet placed_boxes box zs = (false, res) →
      res.core = box.core := by
  induction zs with
  | nil =>
    intro box res h
    simp only [tryLayers, Prod.mk.injEq] at h
    rw [h.2]
  | cons w rest ih =>
    intro box res h
    rcases hres : tryRotations pallet placed_boxes w box box.get_rotations with ⟨fl, bres⟩
    cases fl with
    | true =>
      simp only [tryLayers, hres, Prod.mk.injEq] at h
      exact absurd h.1 (by simp)
    | false =>
      simp only [tryLayers, hres] at h
      rw [ih bres res h, tryRotations_residue pallet placed_boxes w _ box bres hres]

theorem get_rotations_heights (box : Box) :
    ∀ s ∈ box.get_rotations, s.2.2 = box.original_height := by
  intro s hs
  rw [Box.get_rotations, mem_pysorted] at hs
  simp only [List.mem_cons, List.not_mem_nil, or_false] at hs
  rcases hs with rfl | rfl <;> rfl

theorem get_rotations_ne_nil (box : Box) : box.get_rotations ≠ [] := by
  intro h
  have := (pysorted_perm (fun r s : ℚ × ℚ × ℚ => decide (r.1 ≤ s.1))
    [(box.original_length, box.original_width, box.original_height),
     (box.original_width, box.original_length, box.original_height)]).length_eq
  rw [Box.get_rotations] at h
  rw [h] at this
  simp at this

theorem tryLayers_height (pallet : Pallet) (placed_boxes : List Box)
    (zs : List ℚ) :
    ∀ (box res : Box),
      box.height = box.original_height →
      tryLayers pallet placed_boxes box zs = (false, res) →
      res.height = res.original_height := by
  induction zs with
  | nil =>
    intro box res hbox h
    simp only [tryLayers, Prod.mk.injEq] at h
    rw [← h.2]
    exact hbox
  | cons w rest ih =>
    intro box res hbox h
    rcases hres : tryRotations pallet placed_boxes w box box.get_rotations with ⟨fl, bres⟩
    cases fl with
    | true =>
      simp only [tryLayers, hres, Prod.mk.injEq] at h
      exact absurd h.1 (by simp)
    | false =>
      simp only [tryLayers, hres] at h
      have hcore : bres.core = box.core :=
        tryRotations_residue pallet placed_boxes w _ box bres hres
      have hbres : bres.height = bres.original_height := by
        have hh := tryRotations_height pallet placed_boxes w box.original_height
          box.get_rotations box bres (get_rotations_heights box)
          (get_rotations_ne_nil box) hres
        have : bres.original_height = box.original_height := by
          have := congrArg (fun c => c.2.2.2.1) hcore
          simpa [Box.core] using this
        rw [hh, this]
      exact ih bres res hbres h

/-! ### Success characterizations and the flattened first-fit search -/

/-- The first successful layer of the first pass, with its rotation, position
and accepted threshold, in search order. -/
def layerFirst (pallet : Pallet) (placed_boxes : List Box) (box : Box)
    (zs : List ℚ) : Option (ℚ × (ℚ × ℚ × ℚ) × (ℕ × ℕ) × ℚ) :=
  zs.findSome? fun w =>
    (attemptLayer pallet placed_boxes box w).map fun rpt => (w, rpt)

/-- The first successful rotation at a fixed layer, with its position and
accepted threshold, in search order. -/
def rotFirst (pallet : Pallet) (placed_boxes : List Box) (z : ℚ) (box : Box)
    (rs : List (ℚ × ℚ × ℚ)) : Option ((ℚ × ℚ × ℚ) × (ℕ × ℕ) × ℚ) :=
  rs.findSome? fun s =>
    (attemptRot pallet placed_boxes z box s).map fun pt => (s, pt.1, pt.2)

theorem tryLayers_succ_iff (pallet : Pallet) (placed_boxes : List Box)
    (box : Box) (zs : List ℚ) (b : Box) :
    tryLayers pallet placed_boxes box zs = (true, b) ↔
      ∃ zl r p t, layerFirst pallet placed_boxes box zs = some (zl, r, p, t) ∧
        b = ((box.setDims r).setPos (some ((p.1 : ℚ), (p.2 : ℚ), zl))).setThr t := by
  constructor
  · intro h
    rcases hf : layerFirst pallet placed_boxes box zs with _ | x
    · have := tryLayers_false_of_findSome_none pallet placed_boxes zs box hf
      rw [h] at this
      simp at this
    · obtain ⟨zl, r, p, t⟩ := x
      have := tryLayers_eq_of_findSome pallet placed_boxes zs box zl r p t hf
      rw [h] at this
      have hb := (Prod.mk.injEq _ _ _ _).mp this
      exact ⟨zl, r, p, t, rfl, hb.2⟩
  · rintro ⟨zl, r, p, t, hf, rfl⟩
    exact tryLayers_eq_of_findSome pallet placed_boxes zs box zl r p t hf

theorem tryRotations_succ_iff (pallet : Pallet) (placed_boxes : List Box)
    (z : ℚ) (box : Box) (rs : List (ℚ × ℚ × ℚ)) (b : Box) :
    tryRotations pallet placed_boxes z box rs = (true, b) ↔
      ∃ r p t, rotFirst pallet placed_boxes z box rs = some (r, p, t) ∧
        b = ((box.setDims r).setPos (some ((p.1 : ℚ), (p.2 : ℚ), z))).setThr t := by
  constructor
  · intro h
    rcases hf : rotFirst pallet placed_boxes z box rs with _ | x
    · have := tryRotations_false_of_findSome_none pallet placed_boxes z rs box hf
      rw [h] at this
      simp at this
    · obtain ⟨r, p, t⟩ := x
      have := tryRotations_eq_of_findSome pallet placed_boxes z rs box r p t hf
      rw [h] at this
      have hb := (Prod.mk.injEq _ _ _ _).mp this
      exact ⟨r, p, t, rfl, hb.2⟩
  · rintro ⟨r, p, t, hf, rfl⟩
    exact tryRotations_eq_of_findSome pallet placed_boxes z rs box r p t hf

theorem attemptRot_some_elim {pallet : Pallet} {placed_boxes : List Box}
    {z : ℚ} {box : Box} {r : ℚ × ℚ × ℚ} {p : ℕ × ℕ} {t : ℚ}
    (h : attemptRot pallet placed_boxes z box r = some (p, t)) :
    p ∈ generate_possible_positions pallet placed_boxes (box.setDims r) z ∧
    can_place_box pallet placed_boxes
      ((box.setDims r).setPos (some ((p.1 : ℚ), (p.2 : ℚ), z))) p.1 p.2 z = true ∧
    tryThreshold placed_boxes
      ((box.setDims r).setPos (some ((p.1 : ℚ), (p.2 : ℚ), z))) = some t := by
  unfold attemptRot at h
  obtain ⟨q, hq, heq⟩ := List.exists_of_findSome?_eq_some h
  rcases ha : attemptPos pallet placed_boxes z (box.setDims r) q with _ | u
  · rw [ha] at heq; simp at heq
  · rw [ha] at heq
    simp only [Option.map_some', Option.some.injEq, Prod.mk.injEq] at heq
    obtain ⟨rfl, rfl⟩ := heq
    unfold attemptPos at ha
    simp only at ha
    by_cases hc : can_place_box pallet placed_boxes
        ((box.setDims r).setPos (some ((q.1 : ℚ), (q.2 : ℚ), z))) q.1 q.2 z
    · rw [if_pos hc] at ha
      exact ⟨hq, hc, ha⟩
    · rw [if_neg hc] at ha
      simp at ha

theorem attemptLayer_some_elim {pallet : Pallet} {placed_boxes : List Box}
    {box : Box} {zl : ℚ} {r : ℚ × ℚ × ℚ} {p : ℕ × ℕ} {t : ℚ}
    (h : attemptLayer pallet placed_boxes box zl = some (r, p, t)) :
    r ∈ box.get_rotations ∧ attemptRot pallet placed_boxes zl box r = some (p, t) := by
  unfold attemptLayer at h
  obtain ⟨s, hs, heq⟩ := List.exists_of_findSome?_eq_some h
  rcases ha : attemptRot pallet placed_boxes zl box s with _ | pt
  · rw [ha] at heq; simp at heq
  · rw [ha] at heq
    simp only [Option.map_some', Option.some.injEq, Prod.mk.injEq] at heq
    obtain ⟨rfl, h1, h2⟩ := heq
    rw [← h1, ← h2]
    exact ⟨hs, by rw [ha]⟩

/-- Master characterization of a successful `find_space_for_box`: the
accepted layer, rotation, position and threshold, together with the facts
established at acceptance and the origin of the layer height. -/
theorem find_space_success_elim {pallet : Pallet} {placed_boxes : List Box}
    {box : Box} {layers : List ℚ} {b : Box} {ls : List ℚ}
    (h : find_space_for_box pallet placed_boxes box layers = (true, b, ls)) :
    ∃ zl r p t,
      b = ((box.setDims r).setPos (some ((p.1 : ℚ), (p.2 : ℚ), zl))).setThr t ∧
      r ∈ box.get_rotations ∧
      p ∈ generate_possible_positions pallet placed_boxes (box.setDims r) zl ∧
      can_place_box pallet placed_boxes
        ((box.setDims r).setPos (some ((p.1 : ℚ), (p.2 : ℚ), zl))) p.1 p.2 zl = true ∧
      tryThreshold placed_boxes
        ((box.setDims r).setPos (some ((p.1 : ℚ), (p.2 : ℚ), zl))) = some t ∧
      ((zl ∈ layers ∧ ls = layers) ∨
        (zl = pymax (placed_boxes.map fun bb => bb.posz + bb.height) 0 ∧
          ls = insertLayer zl layers)) := by
  unfold find_space_for_box at h
  rcases h1 : tryLayers pallet placed_boxes box (sortedLayers layers) with ⟨fl1, b1⟩
  cases fl1 with
  | true =>
    rw [h1] at h
    simp only [Prod.mk.injEq] at h
    obtain ⟨-, hb, hls⟩ := h
    obtain ⟨zl, r, p, t, hf, rfl⟩ := (tryLayers_succ_iff pallet placed_boxes box
      (sortedLayers layers) b1).mp h1
    obtain ⟨w, hw, heq⟩ := List.exists_of_findSome?_eq_some hf
    rcases ha : attemptLayer pallet placed_boxes box w with _ | rpt
    · rw [ha] at heq; simp at heq
    · rw [ha] at heq
      simp only [Option.map_some', Option.some.injEq, Prod.mk.injEq] at heq
      obtain ⟨rfl, hrpt⟩ := heq
      rw [hrpt] at ha
      obtain ⟨hrot, hatt⟩ := attemptLayer_some_elim ha
      obtain ⟨hgen, hcan, hthr⟩ := attemptRot_some_elim hatt
      refine ⟨w, r, p, t, hb.symm, hrot, hgen, hcan, hthr, Or.inl ⟨?_, hls.symm⟩⟩
      rw [sortedLayers, mem_pysorted] at hw
      exact hw
  | false =>
    rw [h1] at h
    simp only at h
    by_cases hmh : pymax (placed_boxes.map fun bb => bb.posz + bb.height) 0 + b1.height >
        pallet.height
    · rw [if_pos hmh] at h
      simp at h
    · rw [if_neg hmh] at h
      rcases h2 : tryRotations pallet placed_boxes
          (pymax (placed_boxes.map fun bb => bb.posz + bb.height) 0) b1
          b1.get_rotations with ⟨fl2, b2⟩
      cases fl2 with
      | false => rw [h2] at h; simp at h
      | true =>
        rw [h2] at h
        simp only [Prod.mk.injEq] at h
        obtain ⟨-, hb, hls⟩ := h
        have hcore : b1.core = box.core :=
          tryLayers_residue pallet placed_boxes (sortedLayers layers) box b1 h1
        obtain ⟨r, p, t, hf, rfl⟩ := (tryRotations_succ_iff pallet placed_boxes _ b1
          b1.get_rotations b2).mp h2
        obtain ⟨s, hs, heq⟩ := List.exists_of_findSome?_eq_some hf
        rcases ha : attemptRot pallet placed_boxes
            (pymax (placed_boxes.map fun bb => bb.posz + bb.height) 0) b1 s with _ | pt
        · rw [ha] at heq; simp at heq
        · rw [ha] at heq
          obtain ⟨pt1, pt2⟩ := pt
          simp only [Option.map_some', Option.some.injEq, Prod.mk.injEq] at heq
          obtain ⟨rfl, rfl, rfl⟩ := heq
          rw [attemptRot_core hcore] at ha
          obtain ⟨hgen, hcan, hthr⟩ := attemptRot_some_elim ha
          refine ⟨_, s, pt1, pt2, ?_, ?_, hgen, hcan, hthr, Or.inr ⟨rfl, hls.symm⟩⟩
          · rw [← hb, Box.setDims_setPos_of_core hcore]
          · rw [← Box.get_rotations_of_core hcore]
            exact hs

/-! ### Threshold-ladder facts -/

theorem tryThreshold_some_elim {placed_boxes : List Box} {box : Box} {t : ℚ}
    (h : tryThreshold placed_boxes box = some t) :
    t ∈ support_thresholds ∧ (is_supported placed_boxes box t).1 = true := by
  unfold tryThreshold at h
  exact ⟨List.mem_of_find?_eq_some h, by simpa using List.find?_some h⟩

theorem mem_support_thresholds {t : ℚ} (h : t ∈ support_thresholds) :
    t ≤ 100 ∧ t ≠ 100 ∧ (t = 80 ∨ t = 75 ∨ t = 70 ∨ t = 65 ∨ t = 60) := by
  simp only [support_thresholds, List.mem_cons, List.not_mem_nil, or_false] at h
  rcases h with rfl | rfl | rfl | rfl | rfl <;> norm_num

theorem is_supported_snd_ge {placed_boxes : List Box} {box : Box} {t : ℚ}
    (hle : t ≤ 100) (h : (is_supported placed_boxes box t).1 = true) :
    t ≤ (is_supported placed_boxes box t).2 := by
  by_cases hz : box.posz = 0
  · simp only [is_supported, hz, if_true]
    exact hle
  · simp only [is_supported, hz, if_false, ge_iff_le, decide_eq_true_eq] at h ⊢
    exact h

theorem is_supported_setThr (placed_boxes : List Box) (box : Box) (u t : ℚ) :
    is_supported placed_boxes (box.setThr u) t = is_supported placed_boxes box t := rfl

theorem tryThreshold_posz_zero {placed_boxes : List Box} {box : Box}
    (h : box.posz = 0) : tryThreshold placed_boxes box = some 80 := by
  have h80 : (is_supported placed_boxes box 80).1 = true := by
    simp [is_supported, h]
  simp [tryThreshold, support_thresholds, List.find?_cons, h80]

/-! ### `can_place_box` unfolded -/

theorem can_place_box_true_elim {pallet : Pallet} {placed_boxes : List Box}
    {box : Box} {x y z : ℚ} (h : can_place_box pallet placed_boxes box x y z = true) :
    x + box.length ≤ pallet.length ∧ y + box.width ≤ pallet.width ∧
      z + box.height ≤ pallet.height ∧
      ∀ other ∈ placed_boxes,
        x + box.length ≤ other.posx ∨ x ≥ other.posx + other.length ∨
        y + box.width ≤ other.posy ∨ y ≥ other.posy + other.width ∨
        z + box.height ≤ other.posz ∨ z ≥ other.posz + other.height := by
  unfold can_place_box at h
  by_cases hb : x + box.length > pallet.length ∨ y + box.width > pallet.width ∨
      z + box.height > pallet.height
  · rw [if_pos hb] at h
    exact absurd h (by simp)
  · rw [if_neg hb] at h
    push_neg at hb
    refine ⟨hb.1, hb.2.1, hb.2.2, fun other hother => ?_⟩
    exact of_decide_eq_true ((List.all_eq_true.mp h) other hother)

/-! ### First-fit over the flattened, explicitly ordered candidate list -/

theorem findSome_append_eq {α β : Type} (l1 l2 : List α) (f : α → Option β) :
    (l1 ++ l2).findSome? f =
      match l1.findSome? f with
      | some b => some b
      | none => l2.findSome? f := by
  induction l1 with
  | nil => simp
  | cons a l1 ih =>
    simp only [List.cons_append, List.findSome?_cons]
    cases f a <;> simp [ih]

theorem findSome_flatMap_eq {α β γ : Type} (l : List α) (g : α → List β)
    (f : β → Option γ) :
    (l.flatMap g).findSome? f = l.findSome? fun a => (g a).findSome? f := by
  induction l with
  | nil => simp
  | cons a l ih =>
    rw [List.flatMap_cons, findSome_append_eq, List.findSome?_cons]
    cases (g a).findSome? f <;> simp [ih]

theorem findSome_map_eq {α β γ : Type} (l : List α) (g : α → β) (f : β → Option γ) :
    (l.map g).findSome? f = l.findSome? fun a => f (g a) := by
  induction l with
  | nil => simp
  | cons a l ih =>
    rw [List.map_cons, List.findSome?_cons, List.findSome?_cons]
    cases f (g a) <;> simp [ih]

theorem map_findSome_eq {α β γ : Type} (l : List α) (f : α → Option β) (g : β → γ) :
    (l.findSome? f).map g = l.findSome? fun a => (f a).map g := by
  induction l with
  | nil => simp
  | cons a l ih =>
    rw [List.findSome?_cons, List.findSome?_cons]
    cases f a <;> simp [ih]

/-- The flattened candidate sequence of the per-box search: for each layer
(in the order given), for each rotation (in `get_rotations` order), every
grid position (in generation order). -/
def searchCandidates (pallet : Pallet) (placed_boxes : List Box) (box : Box)
    (zs : List ℚ) : List (ℚ × (ℚ × ℚ × ℚ) × ℕ × ℕ) :=
  zs.flatMap fun zl => box.get_rotations.flatMap fun r =>
    (generate_possible_positions pallet placed_boxes (box.setDims r) zl).map
      fun p => (zl, r, p)

/-- First-fit over the flattened candidate sequence: the first candidate in
order that fits, overlaps nothing and passes some rung of the threshold
ladder, together with the first such rung. -/
def firstFit (pallet : Pallet) (placed_boxes : List Box) (box : Box)
    (zs : List ℚ) : Option (ℚ × (ℚ × ℚ × ℚ) × (ℕ × ℕ) × ℚ) :=
  (searchCandidates pallet placed_boxes box zs).findSome? fun c =>
    (attemptPos pallet placed_boxes c.1 (box.setDims c.2.1) c.2.2).map
      fun t => (c.1, c.2.1, c.2.2, t)

theorem firstFit_eq_layerFirst (pallet : Pallet) (placed_boxes : List Box)
    (box : Box) (zs : List ℚ) :
    firstFit pallet placed_boxes box zs = layerFirst pallet placed_boxes box zs := by
  unfold firstFit searchCandidates layerFirst attemptLayer attemptRot
  simp only [findSome_flatMap_eq, findSome_map_eq, map_findSome_eq, Option.map_map,
    Function.comp]
  rfl

/-! ### `pymax` facts -/

theorem foldl_max_spec (l : List ℚ) :
    ∀ a : ℚ, (∀ q ∈ l, q ≤ l.foldl max a) ∧ a ≤ l.foldl max a ∧
      (l.foldl max a = a ∨ l.foldl max a ∈ l) := by
  induction l with
  | nil => intro a; exact ⟨by simp, le_refl a, Or.inl rfl⟩
  | cons x xs ih =>
    intro a
    obtain ⟨h1, h2, h3⟩ := ih (max a x)
    simp only [List.foldl_cons]
    refine ⟨?_, ?_, ?_⟩
    · intro q hq
      rcases List.mem_cons.mp hq with rfl | hq
      · exact le_trans (le_max_right a q) h2
      · exact h1 q hq
    · exact le_trans (le_max_left a x) h2
    · rcases h3 with h3 | h3
      · rcases max_choice a x with hm | hm
        · rw [hm] at h3 ⊢
          exact Or.inl h3
        · rw [hm] at h3 ⊢
          exact Or.inr (by rw [h3]; exact List.mem_cons_self x xs)
      · exact Or.inr (List.mem_cons_of_mem x h3)

theorem pymax_spec (l : List ℚ) (d : ℚ) :
    (∀ q ∈ l, q ≤ pymax l d) ∧ (pymax l d = d ∨ pymax l d ∈ l) := by
  cases l with
  | nil => exact ⟨by simp, Or.inl rfl⟩
  | cons x xs =>
    obtain ⟨h1, h2, h3⟩ := foldl_max_spec xs x
    simp only [pymax]
    refine ⟨?_, ?_⟩
    · intro q hq
      rcases List.mem_cons.mp hq with rfl | hq
      · exact h2
      · exact h1 q hq
    · rcases h3 with h3 | h3
      · exact Or.inr (by rw [h3]; exact List.mem_cons_self x xs)
      · exact Or.inr (List.mem_cons_of_mem x h3)

@[simp] theorem Box.posx_setThr (b : Box) (t : ℚ) : (b.setThr t).posx = b.posx := rfl
@[simp] theorem Box.posy_setThr (b : Box) (t : ℚ) : (b.setThr t).posy = b.posy := rfl
@[simp] theorem Box.posz_setThr (b : Box) (t : ℚ) : (b.setThr t).posz = b.posz := rfl
@[simp] theorem Box.length_setThr (b : Box) (t : ℚ) : (b.setThr t).length = b.length := rfl
@[simp] theorem Box.width_setThr (b : Box) (t : ℚ) : (b.setThr t).width = b.width := rfl
@[simp] theorem Box.height_setThr (b : Box) (t : ℚ) : (b.setThr t).height = b.height := rfl

/-! ### Concrete fixtures used by witnesses and counterexamples -/

theorem range_one : List.range 1 = [0] := rfl
theorem range_two : List.range 2 = [0, 1] := rfl

def palletA : Pallet := ⟨1, 1, 1, 1⟩
def boxA : Box := Box.make "A" 1 1 1 1 0
def boxA0 : Box := ((boxA.setDims (1, 1, 1)).setPos (some (0, 0, 0))).setThr 80

def palletB : Pallet := ⟨2, 1, 2, 1⟩
def blockB : Box := (Box.make "F" 2 1 1 1 0).setPos (some (0, 0, 0))
def boxB : Box := Box.make "B" 1 1 2 1 1

def palletC : Pallet := ⟨2, 2, 2, 1⟩
def blockC : Box := (Box.make "F" 2 2 1 1 0).setPos (some (0, 0, 0))
def boxC : Box := Box.make "B" 2 2 1 1 1
def boxC2 : Box := ((boxC.setDims (2, 2, 1)).setPos (some (0, 0, 1))).setThr 80

def bigBase : Box := (Box.make "T" 1 1 2000000000 1 0).setPos (some (0, 0, 0))
def highBox : Box := (Box.make "C" 1 1 1 1 1).setPos (some (0, 0, 2000000001))

/-! ### Claim C10 -/

/-- C10: whenever `find_space_for_box` accepts a box at height z = 0, the
recorded `support_threshold_used` is 80 (the first rung of the ladder),
because `is_supported` reports (True, 100) at z = 0 and so the first
threshold tried is accepted; moreover no accepted box ever records a
threshold of 100. -/
theorem claim10_zero_layer_threshold (pallet : Pallet) (placed_boxes : List Box)
    (box : Box) (layers : List ℚ) (b : Box) (ls : List ℚ)
    (h : find_space_for_box pallet placed_boxes box layers = (true, b, ls)) :
    ((∃ x y : ℚ, b.position = some (x, y, 0)) → b.support_threshold_used = 80) ∧
      b.support_threshold_used ≠ 100 := by
  obtain ⟨zl, r, p, t, hb, -, -, -, hthr, -⟩ := find_space_success_elim h
  have hmem := (tryThreshold_some_elim hthr).1
  have hfacts := mem_support_thresholds hmem
  subst hb
  constructor
  · rintro ⟨x, y, hpos⟩
    have hz : zl = 0 := by
      simp only [Box.position_setThr, Box.position_setPos, Option.some.injEq,
        Prod.mk.injEq] at hpos
      exact hpos.2.2
    subst hz
    have h80 : tryThreshold placed_boxes
        ((box.setDims r).setPos (some ((p.1 : ℚ), (p.2 : ℚ), 0))) = some 80 :=
      tryThreshold_posz_zero (by simp)
    rw [hthr] at h80
    simpa using Option.some.inj h80
  · simpa using hfacts.2.1

/-- Witness for C10: a 1-unit box on a 1×1×1 pallet is accepted at the floor
with recorded threshold 80. -/
theorem claim10_witness :
    boxA0.support_threshold_used = 80 ∧ boxA0.support_threshold_used ≠ 100 := by
  have h := claim10_zero_layer_threshold palletA [] boxA [0] boxA0 [0] (by
    norm_num [find_space_for_box, tryLayers, tryRotations, tryPositions, tryThreshold,
      sortedLayers, pysorted, insertSorted, Box.get_rotations, Box.make, Box.setDims,
      Box.setPos, Box.setThr, generate_possible_positions, pyInt, range_one,
      can_place_box, is_supported, support_thresholds, Box.posx, Box.posy, Box.posz,
      isclose, pymax, palletA, boxA, boxA0, List.find?])
  exact ⟨h.1 ⟨0, 0, by norm_num [boxA0, boxA, Box.make, Box.setDims, Box.setPos,
    Box.setThr]⟩, h.2⟩

/-! ### Claim C2 -/

/-- The horizontal footprint overlap area between a supporting box `other`
and a candidate box `c` (spec §4.2 / §4.3). -/
def footprintOverlapArea (other c : Box) : ℚ :=
  max 0 (min (c.posx + c.length) (other.posx + other.length) - max c.posx other.posx) *
  max 0 (min (c.posy + c.width) (other.posy + other.width) - max c.posy other.posy)

/-- The claim's support area, with a pure absolute tolerance of 1e-6 on the
top-face/bottom-face height comparison (the claim as stated). -/
def supportAreaAbs (placed_boxes : List Box) (c : Box) : ℚ :=
  (placed_boxes.map fun other =>
    if |other.posz + other.height - c.posz| ≤ 1 / 1000000 then
      footprintOverlapArea other c
    else 0).sum

/-- `is_supported` recomputed exactly as the claim states it: absolute
tolerance 1e-6 only. -/
def isSupportedAbs (placed_boxes : List Box) (c : Box) (t : ℚ) : Bool × ℚ :=
  if c.posz = 0 then (true, 100)
  else
    let p := 100 * supportAreaAbs placed_boxes c / (c.length * c.width)
    (decide (p ≥ t), p)

/-- The support area with the tolerance Python's `math.isclose` actually
applies: `|Δ| ≤ max(1e-9 · max(|top|, |bottom|), 1e-6)`. -/
def supportAreaClose (placed_boxes : List Box) (c : Box) : ℚ :=
  (placed_boxes.map fun other =>
    if |other.posz + other.height - c.posz| ≤
        max (1 / 1000000000 * max |other.posz + other.height| |c.posz|) (1 / 1000000) then
      footprintOverlapArea other c
    else 0).sum

/-- Counterexample to C2 as stated: with a supporting box whose top face is
at z = 2·10⁹ and a candidate at bottom z = 2·10⁹ + 1, the code counts the
support (the relative tolerance 1e-9 dominates the absolute 1e-6), while the
claim's pure absolute tolerance would reject it: the two results differ. -/
theorem claim2_counterexample :
    is_supported [bigBase] highBox 80 = (true, 100) ∧
      isSupportedAbs [bigBase] highBox 80 = (false, 0) := by
  constructor
  · norm_num [is_supported, bigBase, highBox, Box.make, Box.setPos, Box.posx,
      Box.posy, Box.posz, isclose]
  · norm_num [isSupportedAbs, supportAreaAbs, footprintOverlapArea, bigBase, highBox,
      Box.make, Box.setPos, Box.posx, Box.posy, Box.posz]

/-- C2 (amended): `is_supported` returns (True, 100) whenever the candidate's
z-coordinate is exactly 0, regardless of the placed boxes and the threshold;
otherwise it returns (p ≥ t, p) with
p = 100 × supportArea / (length × width), where the support sum counts every
placed box whose top face matches the candidate's bottom within Python's
`isclose` tolerance `max(1e-9 · max(|top|, |bottom|), 1e-6)`. -/
theorem claim2_is_supported_spec (placed_boxes : List Box) (c : Box) (t : ℚ) :
    (c.posz = 0 → is_supported placed_boxes c t = (true, 100)) ∧
    (c.posz ≠ 0 →
      is_supported placed_boxes c t =
        (decide (100 * supportAreaClose placed_boxes c / (c.length * c.width) ≥ t),
          100 * supportAreaClose placed_boxes c / (c.length * c.width))) := by
  constructor
  · intro h
    simp [is_supported, h]
  · intro h
    have harea : (placed_boxes.map fun other =>
        if isclose (other.posz + other.height) c.posz (1 / 1000000000) (1 / 1000000) then
          max 0 (min (c.posx + c.length) (other.posx + other.length) - max c.posx other.posx) *
          max 0 (min (c.posy + c.width) (other.posy + other.width) - max c.posy other.posy)
        else 0).sum = supportAreaClose placed_boxes c := by
      unfold supportAreaClose footprintOverlapArea isclose
      simp only [decide_eq_true_eq]
    have hpct : ∀ sa ba : ℚ, sa / ba * 100 = 100 * sa / ba := fun sa ba => by ring
    simp only [is_supported, h, if_false, harea, hpct]

/-- Witness for the amended C2 at a concrete nonzero-height candidate. -/
theorem claim2_witness :
    is_supported [bigBase] highBox 80 =
      (decide (100 * supportAreaClose [bigBase] highBox /
          (highBox.length * highBox.width) ≥ 80),
        100 * supportAreaClose [bigBase] highBox /
          (highBox.length * highBox.width)) :=
  (claim2_is_supported_spec [bigBase] highBox 80).2 (by
    norm_num [highBox, Box.make, Box.setPos, Box.posz])

/-! ### Claim C9 -/

/-- C9: `calculate_volumetric_weight` is pallet length × width × the tallest
occupied z-extent over the placed boxes (0 when none) divided by 6000, and
`check_perfect_arrangement` holds exactly when the summed box volume matches
the pallet volume within relative tolerance 1e-3 (Python `isclose` with
`rel_tol=1e-3`, `abs_tol=0`). -/
theorem claim9_metrics (pallet : Pallet) (placed_boxes : List Box) :
    (calculate_volumetric_weight pallet placed_boxes =
      pallet.length * pallet.width *
        pymax (placed_boxes.map fun b => b.posz + b.height) 0 / 6000) ∧
    (∀ b ∈ placed_boxes,
      b.posz + b.height ≤ pymax (placed_boxes.map fun b => b.posz + b.height) 0) ∧
    (pymax (placed_boxes.map fun b => b.posz + b.height) 0 = 0 ∨
      ∃ b ∈ placed_boxes,
        pymax (placed_boxes.map fun b => b.posz + b.height) 0 = b.posz + b.height) ∧
    (check_perfect_arrangement pallet placed_boxes = true ↔
      |(placed_boxes.map fun b => b.length * b.width * b.height).sum -
          pallet.length * pallet.width * pallet.height| ≤
        1 / 1000 *
          max |(placed_boxes.map fun b => b.length * b.width * b.height).sum|
            |pallet.length * pallet.width * pallet.height|) := by
  obtain ⟨hmax, hattain⟩ := pymax_spec (placed_boxes.map fun b => b.posz + b.height) 0
  refine ⟨rfl, ?_, ?_, ?_⟩
  · intro b hb
    exact hmax _ (List.mem_map_of_mem _ hb)
  · rcases hattain with h | h
    · exact Or.inl h
    · obtain ⟨b, hb, hbe⟩ := List.mem_map.mp h
      exact Or.inr ⟨b, hb, hbe.symm⟩
  · unfold check_perfect_arrangement isclose
    rw [decide_eq_true_eq]
    have hnn : (0 : ℚ) ≤ 1 / 1000 *
        max |(placed_boxes.map fun b => b.length * b.width * b.height).sum|
          |pallet.length * pallet.width * pallet.height| := by
      positivity
    rw [max_eq_left hnn]

/-- Witness for C9 on a concrete one-box arrangement. -/
theorem claim9_witness :
    blockC.posz + blockC.height ≤ pymax ([blockC].map fun b => b.posz + b.height) 0 :=
  (claim9_metrics palletC [blockC]).2.1 blockC (List.mem_cons_self blockC [])

/-! ### Claim C4 -/

theorem pyInt_intCast (n : ℤ) : pyInt ((n : ℚ)) = n := by
  unfold pyInt
  by_cases h : (0 : ℚ) ≤ (n : ℚ)
  · rw [if_pos h, Int.floor_intCast]
  · rw [if_neg h, Int.ceil_intCast]

/-- C4: for integer-compatible dimensions, `generate_possible_positions`
yields exactly the grid pairs (x, y) with 0 ≤ x ≤ pallet.length − box.length
and 0 ≤ y ≤ pallet.width − box.width, each exactly once, ordered with x as
the slow index and y as the fast index, both ascending from the origin. -/
theorem claim4_positions (L W a c : ℕ) (pallet : Pallet) (box : Box)
    (hL : pallet.length = (L : ℚ)) (hW : pallet.width = (W : ℚ))
    (ha : box.length = (a : ℚ)) (hc : box.width = (c : ℚ))
    (placed_boxes : List Box) (z : ℚ) :
    (∀ x y : ℕ, (x, y) ∈ generate_possible_positions pallet placed_boxes box z ↔
      (0 ≤ (x : ℚ) ∧ (x : ℚ) ≤ pallet.length - box.length ∧
        0 ≤ (y : ℚ) ∧ (y : ℚ) ≤ pallet.width - box.width)) ∧
    (generate_possible_positions pallet placed_boxes box z).Pairwise
      (fun p q => p.1 < q.1 ∨ (p.1 = q.1 ∧ p.2 < q.2)) ∧
    generate_possible_positions pallet placed_boxes box z =
      (List.range (L + 1 - a)).flatMap fun x =>
        (List.range (W + 1 - c)).map fun y => (x, y) := by
  have hx : (pyInt (pallet.length - box.length + 1)).toNat = L + 1 - a := by
    rw [hL, ha, show (L : ℚ) - a + 1 = ((L - a + 1 : ℤ) : ℚ) by push_cast; ring,
      pyInt_intCast]
    omega
  have hy : (pyInt (pallet.width - box.width + 1)).toNat = W + 1 - c := by
    rw [hW, hc, show (W : ℚ) - c + 1 = ((W - c + 1 : ℤ) : ℚ) by push_cast; ring,
      pyInt_intCast]
    omega
  have hgen : generate_possible_positions pallet placed_boxes box z =
      (List.range (L + 1 - a)).flatMap fun x =>
        (List.range (W + 1 - c)).map fun y => (x, y) := by
    simp only [generate_possible_positions]
    rw [hx, hy]
  refine ⟨?_, ?_, hgen⟩
  · intro x y
    rw [hgen, hL, hW, ha, hc]
    simp only [List.mem_flatMap, List.mem_map, List.mem_range, Prod.mk.injEq]
    constructor
    · rintro ⟨x', hx', y', hy', rfl, rfl⟩
      have h1 : x' + a ≤ L := by omega
      have h2 : y' + c ≤ W := by omega
      have h1q : (x' : ℚ) + a ≤ L := by exact_mod_cast h1
      have h2q : (y' : ℚ) + c ≤ W := by exact_mod_cast h2
      exact ⟨Nat.cast_nonneg x', by linarith, Nat.cast_nonneg y', by linarith⟩
    · rintro ⟨-, h1, -, h2⟩
      have h1q : (x : ℚ) + a ≤ L := by linarith
      have h2q : (y : ℚ) + c ≤ W := by linarith
      have h1n : x + a ≤ L := by exact_mod_cast h1q
      have h2n : y + c ≤ W := by exact_mod_cast h2q
      exact ⟨x, by omega, y, by omega, rfl, rfl⟩
  · rw [hgen, List.pairwise_flatMap]
    constructor
    · intro x hx'
      rw [List.pairwise_map]
      exact (List.pairwise_lt_range _).imp fun hlt => Or.inr ⟨rfl, hlt⟩
    · refine (List.pairwise_lt_range _).imp ?_
      intro x1 x2 hlt q hq q' hq'
      obtain ⟨y1, -, rfl⟩ := List.mem_map.mp hq
      obtain ⟨y2, -, rfl⟩ := List.mem_map.mp hq'
      exact Or.inl hlt

/-- Witness for C4 on a 2×2 pallet and a unit box: the grid point (1, 1). -/
theorem claim4_witness :
    (1, 1) ∈ generate_possible_positions palletC [] boxA 0 ↔
      (0 ≤ ((1 : ℕ) : ℚ) ∧ ((1 : ℕ) : ℚ) ≤ palletC.length - boxA.length ∧
        0 ≤ ((1 : ℕ) : ℚ) ∧ ((1 : ℕ) : ℚ) ≤ palletC.width - boxA.width) :=
  (claim4_positions 2 2 1 1 palletC boxA (by norm_num [palletC]) (by norm_num [palletC])
    (by norm_num [boxA, Box.make]) (by norm_num [boxA, Box.make]) [] 0).1 1 1

/-! ### Claim C3 -/

/-- A placed box lies within the pallet volume
`[0, length] × [0, width] × [0, height]`. -/
def inBounds (pallet : Pallet) (b : Box) : Prop :=
  0 ≤ b.posx ∧ b.posx + b.length ≤ pallet.length ∧
  0 ≤ b.posy ∧ b.posy + b.width ≤ pallet.width ∧
  0 ≤ b.posz ∧ b.posz + b.height ≤ pallet.height

/-- Two boxes overlap iff their extents intersect strictly on all three axes
(touching faces do not count). -/
def overlap3D (u v : Box) : Prop :=
  u.posx < v.posx + v.length ∧ v.posx < u.posx + u.length ∧
  u.posy < v.posy + v.width ∧ v.posy < u.posy + u.width ∧
  u.posz < v.posz + v.height ∧ v.posz < u.posz + u.height

/-- C3: an accepted placement preserves the placement invariant — every box
of the extended placed set lies within the pallet bounds, and no two distinct
boxes overlap on all three axes simultaneously. -/
theorem claim3_invariants (pallet : Pallet) (placed_boxes : List Box) (box : Box)
    (layers : List ℚ) (b : Box) (ls : List ℚ)
    (hlay : ∀ w ∈ layers, 0 ≤ w)
    (hbounds : ∀ other ∈ placed_boxes, inBounds pallet other)
    (hhts : ∀ other ∈ placed_boxes, 0 ≤ other.height)
    (hpair : placed_boxes.Pairwise fun u v => ¬ overlap3D u v)
    (h : find_space_for_box pallet placed_boxes box layers = (true, b, ls)) :
    (∀ u ∈ placed_boxes ++ [b], inBounds pallet u) ∧
    (placed_boxes ++ [b]).Pairwise fun u v => ¬ overlap3D u v := by
  obtain ⟨zl, r, p, t, hb, -, -, hcan, -, hz⟩ := find_space_success_elim h
  obtain ⟨h1, h2, h3, h4⟩ := can_place_box_true_elim hcan
  have hbx : b.posx = (p.1 : ℚ) := by rw [hb]; simp
  have hby : b.posy = (p.2 : ℚ) := by rw [hb]; simp
  have hbz : b.posz = zl := by rw [hb]; simp
  have hbl : b.length = r.1 := by rw [hb]; simp [Box.setDims]
  have hbw : b.width = r.2.1 := by rw [hb]; simp [Box.setDims]
  have hbh : b.height = r.2.2 := by rw [hb]; simp [Box.setDims]
  have hzl : 0 ≤ zl := by
    rcases hz with ⟨hmem, -⟩ | ⟨hmh, -⟩
    · exact hlay zl hmem
    · obtain ⟨-, hatt⟩ := pymax_spec (placed_boxes.map fun bb => bb.posz + bb.height) 0
      rcases hatt with h0 | hmem
      · rw [hmh, h0]
      · rw [hmh]
        obtain ⟨bb, hbb, hbbe⟩ := List.mem_map.mp hmem
        rw [← hbbe]
        have hz1 := (hbounds bb hbb).2.2.2.2.1
        have hz2 := hhts bb hbb
        linarith
  simp only [Box.length_setPos, Box.length_setDims, Box.width_setPos, Box.width_setDims,
    Box.height_setPos, Box.height_setDims] at h1 h2 h3 h4
  constructor
  · intro u hu
    rcases List.mem_append.mp hu with hu | hu
    · exact hbounds u hu
    · rw [List.mem_singleton] at hu
      subst hu
      refine ⟨?_, ?_, ?_, ?_, ?_, ?_⟩
      · rw [hbx]; exact Nat.cast_nonneg p.1
      · rw [hbx, hbl]; linarith
      · rw [hby]; exact Nat.cast_nonneg p.2
      · rw [hby, hbw]; linarith
      · rw [hbz]; exact hzl
      · rw [hbz, hbh]; linarith
  · rw [List.pairwise_append]
    refine ⟨hpair, List.pairwise_singleton _ _, ?_⟩
    intro u hu v hv
    rw [List.mem_singleton] at hv
    subst hv
    intro hov
    obtain ⟨o1, o2, o3, o4, o5, o6⟩ := hov
    rw [hbx, hbl] at o1
    rw [hbx] at o2
    rw [hby, hbw] at o3
    rw [hby] at o4
    rw [hbz, hbh] at o5
    rw [hbz] at o6
    have hd := h4 u hu
    rcases hd with hd | hd | hd | hd | hd | hd <;> linarith

/-- Witness for C3: the first box accepted on an empty pallet is in bounds. -/
theorem claim3_witness : inBounds palletA boxA0 := by
  have h := claim3_invariants palletA [] boxA [0] boxA0 [0]
    (by intro w hw; rw [List.mem_singleton] at hw; rw [hw])
    (by intro u hu; exact absurd hu (List.not_mem_nil u))
    (by intro u hu; exact absurd hu (List.not_mem_nil u))
    List.Pairwise.nil
    (by norm_num [find_space_for_box, tryLayers, tryRotations, tryPositions, tryThreshold,
      sortedLayers, pysorted, insertSorted, Box.get_rotations, Box.make, Box.setDims,
      Box.setPos, Box.setThr, generate_possible_positions, pyInt, range_one,
      can_place_box, is_supported, support_thresholds, Box.posx, Box.posy, Box.posz,
      isclose, pymax, palletA, boxA, boxA0, List.find?])
  exact h.1 boxA0 (by simp)

/-! ### Claim C1 -/

/-- C1: the per-box search proceeds over the opened layer heights in
ascending order (the layer list is sorted ascending and contains exactly the
opened layers); at each layer the two horizontal rotations are tried with the
smaller first dimension first (the rotation list is sorted by first component
and is a permutation of the two rotations); the candidate that wins is the
first — in layer × rotation × position order — that fits, overlaps nothing
and passes a rung of the fixed strictly descending ladder [80,75,70,65,60];
and every accepted box records a ladder threshold with its acceptance-time
support percentage at least that threshold. -/
theorem claim1_search_order (pallet : Pallet) (placed_boxes : List Box)
    (box : Box) (layers : List ℚ) :
    ((sortedLayers layers).Pairwise (· ≤ ·) ∧
      (∀ w : ℚ, w ∈ sortedLayers layers ↔ w ∈ layers)) ∧
    (box.get_rotations.Pairwise (fun r s => r.1 ≤ s.1) ∧
      box.get_rotations.Perm
        [(box.original_length, box.original_width, box.original_height),
         (box.original_width, box.original_length, box.original_height)]) ∧
    (support_thresholds = [80, 75, 70, 65, 60] ∧
      support_thresholds.Pairwise (fun t u => u < t)) ∧
    (∀ b : Box,
      tryLayers pallet placed_boxes box (sortedLayers layers) = (true, b) ↔
        ∃ zl r p t,
          firstFit pallet placed_boxes box (sortedLayers layers) = some (zl, r, p, t) ∧
          b = ((box.setDims r).setPos (some ((p.1 : ℚ), (p.2 : ℚ), zl))).setThr t) ∧
    (∀ b ls, find_space_for_box pallet placed_boxes box layers = (true, b, ls) →
      b.support_threshold_used ∈ support_thresholds ∧
      b.support_threshold_used ≤
        (is_supported placed_boxes b b.support_threshold_used).2) := by
  have htotq : ∀ a b : ℚ, decide (a ≤ b) = false → decide (b ≤ a) = true := by
    intro a b h
    simp only [decide_eq_false_iff_not, not_le] at h
    simp only [decide_eq_true_eq]
    linarith
  have htransq : ∀ a b c : ℚ, decide (a ≤ b) = true → decide (b ≤ c) = true →
      decide (a ≤ c) = true := by
    intro a b c h1 h2
    simp only [decide_eq_true_eq] at h1 h2 ⊢
    linarith
  have htotr : ∀ a b : ℚ × ℚ × ℚ, decide (a.1 ≤ b.1) = false → decide (b.1 ≤ a.1) = true := by
    intro a b h
    simp only [decide_eq_false_iff_not, not_le] at h
    simp only [decide_eq_true_eq]
    linarith
  have htransr : ∀ a b c : ℚ × ℚ × ℚ, decide (a.1 ≤ b.1) = true →
      decide (b.1 ≤ c.1) = true → decide (a.1 ≤ c.1) = true := by
    intro a b c h1 h2
    simp only [decide_eq_true_eq] at h1 h2 ⊢
    linarith
  refine ⟨⟨?_, ?_⟩, ⟨?_, ?_⟩, ⟨rfl, ?_⟩, ?_, ?_⟩
  · exact (pairwise_pysorted htotq htransq layers).imp fun h => of_decide_eq_true h
  · intro w
    exact mem_pysorted _ w layers
  · exact (pairwise_pysorted htotr htransr _).imp fun h => of_decide_eq_true h
  · exact pysorted_perm _ _
  · norm_num [support_thresholds, List.pairwise_cons, List.mem_cons]
  · intro b
    rw [tryLayers_succ_iff pallet placed_boxes box (sortedLayers layers) b]
    simp only [firstFit_eq_layerFirst]
  · intro b ls h
    obtain ⟨zl, r, p, t, hb, -, -, -, hthr, -⟩ := find_space_success_elim h
    obtain ⟨hmem, hsup⟩ := tryThreshold_some_elim hthr
    have hle100 := (mem_support_thresholds hmem).1
    have hstu : b.support_threshold_used = t := by rw [hb]; simp
    rw [hstu]
    refine ⟨hmem, ?_⟩
    rw [hb, is_supported_setThr]
    exact is_supported_snd_ge hle100 hsup

/-- Witness for C1: the accepted box of the 1×1×1 scenario records a ladder
threshold and its support percentage is at least that threshold. -/
theorem claim1_witness :
    boxA0.support_threshold_used ∈ support_thresholds ∧
      boxA0.support_threshold_used ≤
        (is_supported [] boxA0 boxA0.support_threshold_used).2 :=
  (claim1_search_order palletA [] boxA [0]).2.2.2.2 boxA0 [0] (by
    norm_num [find_space_for_box, tryLayers, tryRotations, tryPositions, tryThreshold,
      sortedLayers, pysorted, insertSorted, Box.get_rotations, Box.make, Box.setDims,
      Box.setPos, Box.setThr, generate_possible_positions, pyInt, range_one,
      can_place_box, is_supported, support_thresholds, Box.posx, Box.posy, Box.posz,
      isclose, pymax, palletA, boxA, boxA0, List.find?])

/-! ### Claim C6 -/

theorem mem_insertLayer (z w : ℚ) (layers : List ℚ) :
    w ∈ insertLayer z layers ↔ (w ∈ layers ∨ w = z) := by
  unfold insertLayer
  by_cases hz : z ∈ layers
  · rw [if_pos hz]
    constructor
    · exact Or.inl
    · rintro (h | rfl)
      · exact h
      · exact hz
  · rw [if_neg hz]
    simp [List.mem_append]

/-- C6: when the first (existing-layers) pass fails, `find_space_for_box`
computes `max_height` as the maximum of (z + height) over the placed boxes
(0 when none); if `max_height + box.height` strictly exceeds the pallet
height the search fails with the layer set unchanged; otherwise it runs the
same rotation × position × threshold-ladder first-fit at z = max_height, and
on success the layer set becomes the old one plus `max_height`. -/
theorem claim6_new_layer (pallet : Pallet) (placed_boxes : List Box) (box : Box)
    (layers : List ℚ)
    (hbh : box.height = box.original_height)
    (hfail : (tryLayers pallet placed_boxes box (sortedLayers layers)).1 = false) :
    ((∀ bb ∈ placed_boxes, bb.posz + bb.height ≤
        pymax (placed_boxes.map fun bb => bb.posz + bb.height) 0) ∧
      (pymax (placed_boxes.map fun bb => bb.posz + bb.height) 0 = 0 ∨
        ∃ bb ∈ placed_boxes,
          pymax (placed_boxes.map fun bb => bb.posz + bb.height) 0 =
            bb.posz + bb.height)) ∧
    (pymax (placed_boxes.map fun bb => bb.posz + bb.height) 0 + box.height >
        pallet.height →
      find_space_for_box pallet placed_boxes box layers =
        (false, (tryLayers pallet placed_boxes box (sortedLayers layers)).2, layers)) ∧
    (pymax (placed_boxes.map fun bb => bb.posz + bb.height) 0 + box.height ≤
        pallet.height →
      ∀ b ls, find_space_for_box pallet placed_boxes box layers = (true, b, ls) ↔
        ∃ r p t,
          firstFit pallet placed_boxes box
              [pymax (placed_boxes.map fun bb => bb.posz + bb.height) 0] =
            some (pymax (placed_boxes.map fun bb => bb.posz + bb.height) 0, r, p, t) ∧
          b = ((box.setDims r).setPos (some ((p.1 : ℚ), (p.2 : ℚ),
            pymax (placed_boxes.map fun bb => bb.posz + bb.height) 0))).setThr t ∧
          ls = insertLayer
            (pymax (placed_boxes.map fun bb => bb.posz + bb.height) 0) layers) ∧
    (∀ b ls, find_space_for_box pallet placed_boxes box layers = (true, b, ls) →
      ∀ w, w ∈ ls ↔ (w ∈ layers ∨
        w = pymax (placed_boxes.map fun bb => bb.posz + bb.height) 0)) := by
  rcases h1 : tryLayers pallet placed_boxes box (sortedLayers layers) with ⟨fl1, b1⟩
  have hfl : fl1 = false := by
    rw [h1] at hfail
    exact hfail
  subst hfl
  have hcore : b1.core = box.core :=
    tryLayers_residue pallet placed_boxes (sortedLayers layers) box b1 h1
  have hb1h : b1.height = box.original_height := by
    have h' := tryLayers_height pallet placed_boxes (sortedLayers layers) box b1 hbh h1
    have horig : b1.original_height = box.original_height := by
      have hc := congrArg (fun c => c.2.2.2.1) hcore
      simpa [Box.core] using hc
    rw [h', horig]
  have hrotFirst : ∀ z, rotFirst pallet placed_boxes z b1 b1.get_rotations =
      attemptLayer pallet placed_boxes box z := by
    intro z
    unfold rotFirst attemptLayer
    rw [Box.get_rotations_of_core hcore]
    simp only [attemptRot_core hcore]
  have hff : ∀ z, firstFit pallet placed_boxes box [z] =
      (attemptLayer pallet placed_boxes box z).map fun rpt => (z, rpt) := by
    intro z
    rw [firstFit_eq_layerFirst]
    unfold layerFirst
    rw [List.findSome?_cons]
    rcases attemptLayer pallet placed_boxes box z with _ | rpt <;> simp
  obtain ⟨hmax, hattain⟩ := pymax_spec (placed_boxes.map fun bb => bb.posz + bb.height) 0
  refine ⟨⟨?_, ?_⟩, ?_, ?_, ?_⟩
  · intro bb hbb
    exact hmax _ (List.mem_map_of_mem _ hbb)
  · rcases hattain with h | h
    · exact Or.inl h
    · obtain ⟨bb, hbb, hbbe⟩ := List.mem_map.mp h
      exact Or.inr ⟨bb, hbb, hbbe.symm⟩
  · intro hgt
    unfold find_space_for_box
    rw [h1]
    simp only
    rw [if_pos (by rw [hb1h, ← hbh]; exact hgt)]
  · intro hle b ls
    constructor
    · intro h
      unfold find_space_for_box at h
      rw [h1] at h
      simp only at h
      rw [if_neg (by rw [hb1h, ← hbh]; exact not_lt.mpr hle)] at h
      rcases h2 : tryRotations pallet placed_boxes
          (pymax (placed_boxes.map fun bb => bb.posz + bb.height) 0) b1
          b1.get_rotations with ⟨fl2, b2⟩
      rw [h2] at h
      cases fl2 with
      | false => simp at h
      | true =>
        simp only [Prod.mk.injEq] at h
        obtain ⟨-, hb, hls⟩ := h
        obtain ⟨r, p, t, hrf, hb2⟩ := (tryRotations_succ_iff pallet placed_boxes _ b1
          b1.get_rotations b2).mp h2
        refine ⟨r, p, t, ?_, ?_, hls.symm⟩
        · rw [hff, ← hrotFirst, hrf]
          rfl
        · rw [← hb, hb2, Box.setDims_setPos_of_core hcore]
    · rintro ⟨r, p, t, hrf, hbb, hls⟩
      rw [hff] at hrf
      have hal : attemptLayer pallet placed_boxes box
          (pymax (placed_boxes.map fun bb => bb.posz + bb.height) 0) = some (r, p, t) := by
        rcases ha : attemptLayer pallet placed_boxes box
            (pymax (placed_boxes.map fun bb => bb.posz + bb.height) 0) with _ | rpt
        · rw [ha] at hrf
          simp at hrf
        · rw [ha] at hrf
          simp only [Option.map_some', Option.some.injEq, Prod.mk.injEq] at hrf
          rw [← hrf.2]
          exact ha
      have hrot : tryRotations pallet placed_boxes
          (pymax (placed_boxes.map fun bb => bb.posz + bb.height) 0) b1
          b1.get_rotations =
          (true, ((b1.setDims r).setPos (some ((p.1 : ℚ), (p.2 : ℚ),
            pymax (placed_boxes.map fun bb => bb.posz + bb.height) 0))).setThr t) := by
        refine (tryRotations_succ_iff pallet placed_boxes _ b1
          b1.get_rotations _).mpr ⟨r, p, t, ?_, rfl⟩
        rw [hrotFirst, hal]
      unfold find_space_for_box
      rw [h1]
      simp only
      rw [if_neg (by rw [hb1h, ← hbh]; exact not_lt.mpr hle), hrot]
      rw [hbb, hls, Box.setDims_setPos_of_core hcore]
  · intro b ls h w
    unfold find_space_for_box at h
    rw [h1] at h
    simp only at h
    by_cases hgt : pymax (placed_boxes.map fun bb => bb.posz + bb.height) 0 + b1.height >
        pallet.height
    · rw [if_pos hgt] at h
      simp at h
    · rw [if_neg hgt] at h
      rcases h2 : tryRotations pallet placed_boxes
          (pymax (placed_boxes.map fun bb => bb.posz + bb.height) 0) b1
          b1.get_rotations with ⟨fl2, b2⟩
      rw [h2] at h
      cases fl2 with
      | false => simp at h
      | true =>
        simp only [Prod.mk.injEq] at h
        rw [← h.2.2]
        exact mem_insertLayer _ w layers

set_option maxHeartbeats 4000000 in
/-- Witness for C6: on a 2×2×2 pallet whose floor layer is filled by a
2×2×1 box, a second 2×2×1 box fails the existing-layer pass and is accepted
by the new-layer search at z = 1, which is then added to the layer set. -/
theorem claim6_witness :
    ∃ r p t,
      firstFit palletC [blockC] boxC
          [pymax ([blockC].map fun bb => bb.posz + bb.height) 0] =
        some (pymax ([blockC].map fun bb => bb.posz + bb.height) 0, r, p, t) ∧
      boxC2 = ((boxC.setDims r).setPos (some ((p.1 : ℚ), (p.2 : ℚ),
        pymax ([blockC].map fun bb => bb.posz + bb.height) 0))).setThr t ∧
      ([0, 1] : List ℚ) = insertLayer
        (pymax ([blockC].map fun bb => bb.posz + bb.height) 0) [0] := by
  have h := claim6_new_layer palletC [blockC] boxC [0] rfl (by
    norm_num [tryLayers, tryRotations, tryPositions, tryThreshold,
      sortedLayers, pysorted, insertSorted, Box.get_rotations, Box.make, Box.setDims,
      Box.setPos, Box.setThr, generate_possible_positions, pyInt, range_one,
      can_place_box, is_supported, support_thresholds, Box.posx, Box.posy, Box.posz,
      isclose, pymax, palletC, blockC, boxC, List.find?])
  refine (h.2.2.1 (by norm_num [pymax, blockC, boxC, Box.make, Box.setPos, Box.posz,
    palletC]) boxC2 [0, 1]).mp ?_
  norm_num [find_space_for_box, tryLayers, tryRotations, tryPositions, tryThreshold,
    sortedLayers, pysorted, insertSorted, Box.get_rotations, Box.make, Box.setDims,
    Box.setPos, Box.setThr, generate_possible_positions, pyInt, range_one,
    can_place_box, is_supported, support_thresholds, Box.posx, Box.posy, Box.posz,
    isclose, pymax, palletC, blockC, boxC, boxC2, List.find?, insertLayer]

/-! ### Claim C8 -/

set_option maxHeartbeats 4000000 in
/-- Counterexample to C8 as stated: on a 2×1×2 pallet whose floor is filled
by a 2×1×1 box, a 1×1×2 box cannot be placed anywhere; its search fails, yet
the box's position field — None before the search — is left holding the last
candidate tried, (1, 0, 0), rather than None. -/
theorem claim8_counterexample :
    (find_space_for_box palletB [blockB] boxB [0]).1 = false ∧
      boxB.position = none ∧
      (find_space_for_box palletB [blockB] boxB [0]).2.1.position = some (1, 0, 0) := by
  refine ⟨?_, rfl, ?_⟩ <;>
    norm_num [find_space_for_box, tryLayers, tryRotations, tryPositions, tryThreshold,
      sortedLayers, pysorted, insertSorted, Box.get_rotations, Box.make, Box.setDims,
      Box.setPos, Box.setThr, generate_possible_positions, pyInt, range_one, range_two,
      can_place_box, is_supported, support_thresholds, Box.posx, Box.posy, Box.posz,
      isclose, pymax, palletB, blockB, boxB, List.find?]

def boxA0p : Box := { boxA0 with placed := true }

/-- C8 (amended): during a box's own search `find_space_for_box` overwrites
its position field at every candidate tried, and a failed search leaves the
last candidate there instead of None; what does hold is that an accepted box
has a recorded position, and that once a box is appended to the placed list
the orchestration never modifies it — the placed list only grows by
appending, so earlier entries persist unchanged. -/
theorem claim8_position_persistence (pallet : Pallet) :
    (∀ (seq placed : List Box) (layers : List ℚ) (out : List Box),
      placeLoop pallet seq placed layers = .ok out → ∃ rest, out = placed ++ rest) ∧
    (∀ (placed : List Box) (box : Box) (layers : List ℚ) (b : Box) (ls : List ℚ),
      find_space_for_box pallet placed box layers = (true, b, ls) →
        ∃ x y zl : ℚ, b.position = some (x, y, zl)) := by
  constructor
  · intro seq
    induction seq with
    | nil =>
      intro placed layers out h
      simp only [placeLoop, Except.ok.injEq] at h
      exact ⟨[], by rw [← h]; simp⟩
    | cons bx rest ih =>
      intro placed layers out h
      rcases hfs : find_space_for_box pallet placed bx layers with ⟨fl, b1, l1⟩
      cases fl with
      | true =>
        simp only [placeLoop, hfs] at h
        obtain ⟨r2, hr2⟩ := ih (placed ++ [{ b1 with placed := true }]) l1 out h
        exact ⟨{ b1 with placed := true } :: r2, by rw [hr2, List.append_assoc]; rfl⟩
      | false =>
        simp only [placeLoop, hfs] at h
        exact absurd h (by simp)
  · intro placed box layers b ls h
    obtain ⟨zl, r, p, t, hb, -⟩ := find_space_success_elim h
    exact ⟨p.1, p.2, zl, by rw [hb]; rfl⟩

set_option maxHeartbeats 4000000 in
/-- Witness for the amended C8 on a one-box run. -/
theorem claim8_witness : ∃ rest, [boxA0p] = ([] : List Box) ++ rest :=
  (claim8_position_persistence palletA).1 [boxA] [] [0] [boxA0p] (by
    norm_num [placeLoop, find_space_for_box, tryLayers, tryRotations, tryPositions,
      tryThreshold, sortedLayers, pysorted, insertSorted, Box.get_rotations, Box.make,
      Box.setDims, Box.setPos, Box.setThr, generate_possible_positions, pyInt, range_one,
      can_place_box, is_supported, support_thresholds, Box.posx, Box.posy, Box.posz,
      isclose, pymax, palletA, boxA, boxA0, boxA0p, List.find?])

/-! ### Claim C7 -/

def palletS : Pallet := ⟨1, 1, 1, 2⟩
def boxS : Box := Box.make "S" 2 2 2 1 0

/-- C7: in a multi-pallet run each pallet is processed independently (the
results list has one entry per pallet, and a pallet's entry is computed from
that pallet alone, unaffected by siblings failing); a pallet whose run fails
yields an explicit error naming the first box that could not be placed and
no placed list; and an error of the placement loop decomposes the sequence
into successfully placed boxes followed by the first failing box. -/
theorem claim7_failure_isolation :
    (∀ (pallets : List Pallet) (specs : List BoxSpec),
      (runPallets pallets specs).length = pallets.length) ∧
    (∀ (ps1 : List Pallet) (p : Pallet) (ps2 : List Pallet) (specs : List BoxSpec),
      runPallets (ps1 ++ p :: ps2) specs =
        runPallets ps1 specs ++ processPallet p specs :: runPallets ps2 specs) ∧
    (∀ (pallet : Pallet) (boxes : List Box) (n : String),
      place_boxes pallet boxes = .error n →
        placeLoop pallet (sort_boxes_by_group_priority (group_boxes_by_dimensions boxes))
          [] [0] = .error n ∧ ∀ res, place_boxes pallet boxes ≠ .ok res) ∧
    (∀ (pallet : Pallet) (seq placed : List Box) (layers : List ℚ) (n : String),
      placeLoop pallet seq placed layers = .error n →
        ∃ pre bfail post placedPre layersPre,
          seq = pre ++ bfail :: post ∧ n = bfail.name ∧
          placeLoop pallet seq placed layers =
            placeLoop pallet (bfail :: post) placedPre layersPre ∧
          (find_space_for_box pallet placedPre bfail layersPre).1 = false) := by
  refine ⟨?_, ?_, ?_, ?_⟩
  · intro pallets specs
    induction pallets with
    | nil => rfl
    | cons p rest ih => simp [runPallets, ih]
  · intro ps1 p ps2 specs
    induction ps1 with
    | nil => rfl
    | cons q rest ih => simp [runPallets, ih]
  · intro pallet boxes n h
    unfold place_boxes at h
    rcases hp : placeLoop pallet
        (sort_boxes_by_group_priority (group_boxes_by_dimensions boxes)) [] [0] with m | m
    · rw [hp] at h
      simp only [Except.error.injEq] at h
      constructor
      · rw [h]
      · intro res hres
        unfold place_boxes at hres
        rw [hp] at hres
        simp at hres
    · rw [hp] at h
      simp at h
  · intro pallet seq
    induction seq with
    | nil =>
      intro placed layers n h
      simp only [placeLoop] at h
      exact absurd h (by simp)
    | cons bx rest ih =>
      intro placed layers n h
      rcases hfs : find_space_for_box pallet placed bx layers with ⟨fl, b1, l1⟩
      cases fl with
      | true =>
        simp only [placeLoop, hfs] at h
        obtain ⟨pre, bfail, post, pP, lP, hd, hn, hchain, hflag⟩ :=
          ih (placed ++ [{ b1 with placed := true }]) l1 n h
        refine ⟨bx :: pre, bfail, post, pP, lP, by rw [hd]; rfl, hn, ?_, hflag⟩
        calc placeLoop pallet (bx :: rest) placed layers
            = placeLoop pallet rest (placed ++ [{ b1 with placed := true }]) l1 := by
              simp only [placeLoop, hfs]
          _ = placeLoop pallet (bfail :: post) pP lP := hchain
      | false =>
        simp only [placeLoop, hfs] at h
        simp only [Except.error.injEq] at h
        exact ⟨[], bx, rest, placed, layers, rfl, h.symm, rfl, by rw [hfs]⟩

set_option maxHeartbeats 4000000 in
/-- Witness for C7: a 2×2×2 box can fit nowhere on a 1×1×1 pallet; the run
fails naming that box. -/
theorem claim7_witness :
    placeLoop palletS
      (sort_boxes_by_group_priority (group_boxes_by_dimensions [boxS])) [] [0] =
      Except.error "S" :=
  (claim7_failure_isolation.2.2.1 palletS [boxS] "S" (by
    norm_num [place_boxes, placeLoop, group_boxes_by_dimensions, insertGroup,
      Box.dimension_tuple, sort_boxes_by_group_priority, groupLe, pysorted, insertSorted,
      find_space_for_box, tryLayers, tryRotations, tryPositions, tryThreshold,
      sortedLayers, Box.get_rotations, Box.make, Box.setDims, Box.setPos, Box.setThr,
      generate_possible_positions, pyInt, can_place_box, is_supported,
      support_thresholds, Box.posx, Box.posy, Box.posz, isclose, pymax, palletS, boxS,
      List.find?, check_perfect_arrangement])).1

/-! ### Claim C5 -/

theorem dimension_tuple_prod (b : Box) :
    b.dimension_tuple.prod =
      b.original_length * b.original_width * b.original_height := by
  rw [Box.dimension_tuple, (pysorted_perm _ _).prod_eq]
  simp [mul_assoc]

theorem volume_eq_of_dimension_tuple {b1 b2 : Box}
    (h : b1.dimension_tuple = b2.dimension_tuple) :
    b1.original_length * b1.original_width * b1.original_height =
      b2.original_length * b2.original_width * b2.original_height := by
  rw [← dimension_tuple_prod, ← dimension_tuple_prod, h]

theorem insertGroup_spec (b : Box) :
    ∀ (gs : List BoxGroup) (l : List Box),
      (∀ g ∈ gs, g.boxes = l.filter fun bb => bb.dimension_tuple = g.dims) →
      ((gs.map BoxGroup.dims).Nodup) →
      (b.dimension_tuple ∉ gs.map BoxGroup.dims →
        (l.filter fun bb => bb.dimension_tuple = b.dimension_tuple) = []) →
      (∀ g ∈ gs, ∃ b0 : Box, b0.dimension_tuple = g.dims ∧
        g.volume = b0.original_length * b0.original_width * b0.original_height) →
      (∀ g ∈ insertGroup gs b,
        g.boxes = (l ++ [b]).filter fun bb => bb.dimension_tuple = g.dims) ∧
      ((insertGroup gs b).map BoxGroup.dims =
        if b.dimension_tuple ∈ gs.map BoxGroup.dims then gs.map BoxGroup.dims
        else gs.map BoxGroup.dims ++ [b.dimension_tuple]) ∧
      ((insertGroup gs b).map BoxGroup.dims).Nodup ∧
      (∀ g ∈ insertGroup gs b, ∃ b0 : Box, b0.dimension_tuple = g.dims ∧
        g.volume = b0.original_length * b0.original_width * b0.original_height) := by
  intro gs
  induction gs with
  | nil =>
    intro l hfil hnd hnew hvol
    have hl : (l.filter fun bb => bb.dimension_tuple = b.dimension_tuple) = [] :=
      hnew (by simp)
    refine ⟨?_, by simp [insertGroup], by simp [insertGroup], ?_⟩
    · intro g hg
      simp only [insertGroup, List.mem_singleton] at hg
      subst hg
      rw [List.filter_append, hl]
      simp
    · intro g hg
      simp only [insertGroup, List.mem_singleton] at hg
      subst hg
      exact ⟨b, rfl, rfl⟩
  | cons g0 rest ih =>
    intro l hfil hnd hnew hvol
    rw [List.map_cons, List.nodup_cons] at hnd
    by_cases hd : g0.dims = b.dimension_tuple
    · have hins : insertGroup (g0 :: rest) b =
          { g0 with boxes := g0.boxes ++ [b] } :: rest := by
        simp [insertGroup, hd]
      have hmem0 : b.dimension_tuple ∈ (g0 :: rest).map BoxGroup.dims := by
        rw [List.map_cons]
        exact hd ▸ List.mem_cons_self _ _
      rw [hins]
      refine ⟨?_, ?_, ?_, ?_⟩
      · intro g hg
        rcases List.mem_cons.mp hg with he | hg
        · rw [he]
          show g0.boxes ++ [b] = (l ++ [b]).filter fun bb => bb.dimension_tuple = g0.dims
          rw [List.filter_append, hfil g0 (List.mem_cons_self g0 rest)]
          congr 1
          simp [hd.symm]
        · rw [hfil g (List.mem_cons_of_mem g0 hg), List.filter_append]
          have hne : b.dimension_tuple ≠ g.dims := by
            intro he
            exact hnd.1 (by rw [hd, he]; exact List.mem_map_of_mem BoxGroup.dims hg)
          simp [hne]
      · rw [if_pos hmem0]
        rfl
      · rw [List.map_cons, List.nodup_cons]
        exact ⟨hnd.1, hnd.2⟩
      · intro g hg
        rcases List.mem_cons.mp hg with he | hg
        · rw [he]
          exact hvol g0 (List.mem_cons_self g0 rest)
        · exact hvol g (List.mem_cons_of_mem g0 hg)
    · have hins : insertGroup (g0 :: rest) b = g0 :: insertGroup rest b := by
        simp [insertGroup, hd]
      have hnew' : b.dimension_tuple ∉ rest.map BoxGroup.dims →
          (l.filter fun bb => bb.dimension_tuple = b.dimension_tuple) = [] := by
        intro hnotin
        apply hnew
        rw [List.map_cons, List.mem_cons]
        rintro (h | h)
        · exact hd h.symm
        · exact hnotin h
      obtain ⟨ihfil, ihmap, ihnd, ihvol⟩ := ih l
        (fun g hg => hfil g (List.mem_cons_of_mem g0 hg)) hnd.2 hnew'
        (fun g hg => hvol g (List.mem_cons_of_mem g0 hg))
      rw [hins]
      refine ⟨?_, ?_, ?_, ?_⟩
      · intro g hg
        rcases List.mem_cons.mp hg with he | hg
        · rw [he, hfil g0 (List.mem_cons_self g0 rest), List.filter_append]
          have hne : b.dimension_tuple ≠ g0.dims := fun he2 => hd he2.symm
          simp [hne]
        · exact ihfil g hg
      · rw [List.map_cons, ihmap, List.map_cons]
        by_cases hmem : b.dimension_tuple ∈ rest.map BoxGroup.dims
        · rw [if_pos hmem, if_pos (List.mem_cons_of_mem g0.dims hmem)]
        · rw [if_neg hmem, if_neg ?_]
          · rfl
          · rw [List.mem_cons]
            rintro (h | h)
            · exact hd h.symm
            · exact hmem h
      · rw [List.map_cons, List.nodup_cons, ihmap]
        by_cases hmem : b.dimension_tuple ∈ rest.map BoxGroup.dims
        · rw [if_pos hmem]
          exact ⟨hnd.1, by rw [ihmap, if_pos hmem] at ihnd; exact ihnd⟩
        · rw [if_neg hmem]
          refine ⟨?_, by rw [ihmap, if_neg hmem] at ihnd; exact ihnd⟩
          rw [List.mem_append, List.mem_singleton]
          rintro (h | h)
          · exact hnd.1 h
          · exact hd h
      · intro g hg
        rcases List.mem_cons.mp hg with he | hg
        · rw [he]
          exact hvol g0 (List.mem_cons_self g0 rest)
        · exact ihvol g hg

theorem group_boxes_inv (boxes : List Box) :
    (∀ g ∈ group_boxes_by_dimensions boxes,
      g.boxes = boxes.filter fun bb => bb.dimension_tuple = g.dims) ∧
    ((group_boxes_by_dimensions boxes).map BoxGroup.dims).Nodup ∧
    (∀ bb ∈ boxes,
      bb.dimension_tuple ∈ (group_boxes_by_dimensions boxes).map BoxGroup.dims) ∧
    (∀ g ∈ group_boxes_by_dimensions boxes, ∃ b0 : Box,
      b0.dimension_tuple = g.dims ∧
      g.volume = b0.original_length * b0.original_width * b0.original_height) := by
  induction boxes using List.reverseRecOn with
  | nil => exact ⟨by simp [group_boxes_by_dimensions], by simp [group_boxes_by_dimensions],
      by simp, by simp [group_boxes_by_dimensions]⟩
  | append_singleton l b ih =>
    obtain ⟨h1, h2, h3, h4⟩ := ih
    have hgb : group_boxes_by_dimensions (l ++ [b]) =
        insertGroup (group_boxes_by_dimensions l) b := by
      unfold group_boxes_by_dimensions
      rw [List.foldl_append]
      rfl
    have hnew : b.dimension_tuple ∉ (group_boxes_by_dimensions l).map BoxGroup.dims →
        (l.filter fun bb => bb.dimension_tuple = b.dimension_tuple) = [] := by
      intro hnotin
      rcases hfl : l.filter (fun bb => bb.dimension_tuple = b.dimension_tuple) with _ | ⟨c, cs⟩
      · exact hfl
      · exfalso
        have hc : c ∈ l.filter fun bb => bb.dimension_tuple = b.dimension_tuple := by
          rw [hfl]
          exact List.mem_cons_self c cs
        obtain ⟨hcl, hcd⟩ := List.mem_filter.mp hc
        have hcd' : c.dimension_tuple = b.dimension_tuple := of_decide_eq_true hcd
        exact hnotin (hcd' ▸ h3 c hcl)
    obtain ⟨s1, s2, s3, s4⟩ := insertGroup_spec b (group_boxes_by_dimensions l) l h1 h2 hnew h4
    rw [hgb]
    refine ⟨s1, s3, ?_, s4⟩
    intro bb hbb
    rcases List.mem_append.mp hbb with hbb | hbb
    · rw [s2]
      by_cases hmem : b.dimension_tuple ∈ (group_boxes_by_dimensions l).map BoxGroup.dims
      · rw [if_pos hmem]
        exact h3 bb hbb
      · rw [if_neg hmem]
        exact List.mem_append_left _ (h3 bb hbb)
    · rw [List.mem_singleton] at hbb
      subst hbb
      rw [s2]
      by_cases hmem : bb.dimension_tuple ∈ (group_boxes_by_dimensions l).map BoxGroup.dims
      · rw [if_pos hmem]
        exact hmem
      · rw [if_neg hmem]
        exact List.mem_append_right _ (by simp)

/-- C5: grouping partitions the box units by the equality key "original
dimensions sorted ascending" (each group's box list is exactly the input
boxes with that signature, in input order; the keys are pairwise distinct and
cover every box; a group's recorded volume is each member's single-box
volume), and the processing sequence is the concatenation of the groups
arranged in an order that is non-increasing in the key
(volume × count, count) — a deterministic function of the input. -/
theorem claim5_grouping (boxes : List Box) :
    (∀ g ∈ group_boxes_by_dimensions boxes,
      g.boxes = boxes.filter fun bb => bb.dimension_tuple = g.dims) ∧
    ((group_boxes_by_dimensions boxes).map BoxGroup.dims).Nodup ∧
    (∀ bb ∈ boxes,
      bb.dimension_tuple ∈ (group_boxes_by_dimensions boxes).map BoxGroup.dims) ∧
    (∀ g ∈ group_boxes_by_dimensions boxes, ∀ bb ∈ g.boxes,
      g.volume = bb.original_length * bb.original_width * bb.original_height) ∧
    (∃ gs' : List BoxGroup, gs'.Perm (group_boxes_by_dimensions boxes) ∧
      gs'.Pairwise (fun g1 g2 =>
        g2.volume * (g2.boxes.length : ℚ) < g1.volume * (g1.boxes.length : ℚ) ∨
        (g2.volume * (g2.boxes.length : ℚ) = g1.volume * (g1.boxes.length : ℚ) ∧
          g2.boxes.length ≤ g1.boxes.length)) ∧
      sort_boxes_by_group_priority (group_boxes_by_dimensions boxes) =
        (gs'.map BoxGroup.boxes).flatten) := by
  obtain ⟨h1, h2, h3, h4⟩ := group_boxes_inv boxes
  have htot : ∀ g1 g2 : BoxGroup, groupLe g1 g2 = false → groupLe g2 g1 = true := by
    intro g1 g2 h
    simp only [groupLe, decide_eq_false_iff_not, not_or, not_and, not_le, not_lt] at h
    simp only [groupLe, decide_eq_true_eq]
    obtain ⟨hle, himp⟩ := h
    rcases lt_or_eq_of_le hle with hlt | heq
    · exact Or.inl hlt
    · refine Or.inr ⟨heq, ?_⟩
      have hcc := himp heq.symm
      omega
  have htrans : ∀ g1 g2 g3 : BoxGroup, groupLe g1 g2 = true → groupLe g2 g3 = true →
      groupLe g1 g3 = true := by
    intro g1 g2 g3 h12 h23
    simp only [groupLe, decide_eq_true_eq] at h12 h23 ⊢
    rcases h12 with h12 | ⟨h12e, h12c⟩ <;> rcases h23 with h23 | ⟨h23e, h23c⟩
    · exact Or.inl (lt_trans h23 h12)
    · exact Or.inl (by rw [h23e]; exact h12)
    · exact Or.inl (by rw [← h12e]; exact h23)
    · exact Or.inr ⟨h23e.trans h12e, le_trans h23c h12c⟩
  refine ⟨h1, h2, h3, ?_, ?_⟩
  · intro g hg bb hbb
    obtain ⟨b0, hb0d, hb0v⟩ := h4 g hg
    have hbbd : bb.dimension_tuple = g.dims := by
      rw [h1 g hg] at hbb
      exact of_decide_eq_true (List.mem_filter.mp hbb).2
    rw [hb0v]
    exact volume_eq_of_dimension_tuple (by rw [hb0d, hbbd])
  · refine ⟨pysorted groupLe (group_boxes_by_dimensions boxes),
      pysorted_perm _ _, ?_, rfl⟩
    exact (pairwise_pysorted htot htrans _).imp fun h => by
      simpa only [groupLe, decide_eq_true_eq] using h

def bX : Box := Box.make "X" 1 2 3 1 0
def bY : Box := Box.make "Y" 2 1 3 1 1

/-- Witness for C5: two congruent boxes (1×2×3 and 2×1×3) fall into the one
group keyed by the sorted signature [1, 2, 3], in input order. -/
theorem claim5_witness :
    (⟨[1, 2, 3], [bX, bY], 6⟩ : BoxGroup).boxes =
      [bX, bY].filter fun bb => bb.dimension_tuple = (⟨[1, 2, 3], [bX, bY], 6⟩ : BoxGroup).dims :=
  (claim5_grouping [bX, bY]).1 ⟨[1, 2, 3], [bX, bY], 6⟩ (by
    norm_num [group_boxes_by_dimensions, insertGroup, Box.dimension_tuple, pysorted,
      insertSorted, bX, bY, Box.make])
